import Mathlib

set_option maxHeartbeats 2000000
set_option maxRecDepth 4000

/-!
Shallow embedding of the jpp JSONPath engine (RFC 9535), crates/jpp_core:
the JSON data model (serde_json::Value), the evaluator (eval.rs), the
lexer (lexer.rs) and the parser (parser.rs), with theorems checking the
specification's claims against this embedding.

Modelling conventions:
* `f64` is modelled as an exact rational (`ℚ`).  JSON documents carry no
  NaN or infinity, and every numeric computation the claims exercise is
  exact in this fragment; where the sign of a floating-point zero matters
  (the parser's `-0` check) the embedding carries the literal's sign bit
  separately, which agrees with `f64::is_sign_negative` for the number
  grammar the lexer accepts.
* Rust `String`s are lists of Unicode scalar values (`List Char`); the
  lexer iterates `Chars`, and string order/equality on valid UTF-8 agree
  with code-point order.
* `serde_json` objects are insertion-ordered association lists; `get` is
  the first matching key (JSON objects have unique keys).
* The regex engine is an external collaborator of the crate; it is a
  parameter `compile : List Char → Option (List Char → Bool)` mapping a
  pattern to a matcher when it compiles.  The thread-local regex cache of
  eval.rs only memoises `Regex::new` and is semantically transparent, so
  it is not modelled.
-/

/-- JSON values, after serde_json::Value. -/
inductive JValue where
  | null
  | bool (b : Bool)
  | num (q : ℚ)
  | str (s : List Char)
  | arr (xs : List JValue)
  | obj (kvs : List (List Char × JValue))

instance : Inhabited JValue := ⟨JValue.null⟩

namespace JValue

/-- First-match association-list lookup, after serde_json::Map::get. -/
def lookup (key : List Char) : List (List Char × JValue) → Option JValue
  | [] => none
  | (k, v) :: rest => if k = key then some v else lookup key rest

/-- The immediate children of a value in document order: array elements
    left to right, object values in insertion order, none for scalars. -/
def children : JValue → List JValue
  | arr xs => xs
  | obj kvs => kvs.map (·.2)
  | _ => []

end JValue

/-- `value_is_truthy` of eval.rs. -/
def valueIsTruthy : JValue → Bool
  | .null => false
  | .bool b => b
  | .num q => q != 0
  | .str s => !s.isEmpty
  | .arr xs => !xs.isEmpty
  | .obj kvs => !kvs.isEmpty

/-- `ExprResult` of eval.rs: the result of evaluating a filter expression. -/
inductive ExprResult where
  | value (v : JValue)
  | nodeList (l : List JValue)
  | nothing

namespace ExprResult

/-- `ExprResult::is_truthy`. -/
def isTruthy : ExprResult → Bool
  | nodeList l => !l.isEmpty
  | value v => valueIsTruthy v
  | nothing => false

/-- `ExprResult::is_singular`. -/
def isSingular : ExprResult → Bool
  | value _ => true
  | nodeList l => l.length ≤ 1
  | nothing => true

/-- `ExprResult::to_value`: first element of a node list, if any. -/
def toValue : ExprResult → Option JValue
  | value v => some v
  | nodeList l => l.head?
  | nothing => none

end ExprResult

/-- Comparison operators of the AST (ast.rs `CompOp`). -/
inductive CompOp where
  | eq | ne | lt | gt | le | ge
deriving DecidableEq, Repr

/-- Logical operators of the AST (ast.rs `LogicalOp`). -/
inductive LogicalOp where
  | and | or
deriving DecidableEq, Repr

/-- Filter-expression literals (ast.rs `Literal`). -/
inductive JLiteral where
  | null
  | bool (b : Bool)
  | num (q : ℚ)
  | str (s : List Char)

mutual
/-- Selectors (ast.rs `Selector`). -/
inductive Selector where
  | name (s : List Char)
  | index (i : ℤ)
  | wildcard
  | slice (start stop step : Option ℤ)
  | filter (e : JExpr)

/-- Segments (ast.rs `Segment`). -/
inductive Segment where
  | child (sels : List Selector)
  | descendant (sels : List Selector)

/-- Filter expressions (ast.rs `Expr`). -/
inductive JExpr where
  | currentNode
  | rootNode
  | path (start : JExpr) (segs : List Segment)
  | lit (l : JLiteral)
  | comparison (left : JExpr) (op : CompOp) (right : JExpr)
  | logical (left : JExpr) (op : LogicalOp) (right : JExpr)
  | not (e : JExpr)
  | funcCall (fname : List Char) (args : List JExpr)
end

/-- A parsed JSONPath (ast.rs `JsonPath`): a sequence of segments. -/
structure JsonPath where
  segments : List Segment

/-- `literal_to_value` of eval.rs.  `serde_json::Number::from_f64` fails only
    for NaN and infinities, which the rational model cannot represent, so the
    `Null` fallback of the source is unreachable here. -/
def literalToValue : JLiteral → JValue
  | .null => .null
  | .bool b => .bool b
  | .num q => .num q
  | .str s => .str s

mutual
/-- `values_equal` of eval.rs.  Arrays compare element-wise in order; objects
    compare per serde_json::Map's PartialEq: equal length and every key of the
    left side maps to an equal value on the right. -/
def valuesEqual : JValue → JValue → Bool
  | .null, .null => true
  | .bool l, .bool r => l == r
  | .num l, .num r => l == r
  | .str l, .str r => l == r
  | .arr l, .arr r => valuesEqualList l r
  | .obj l, .obj r =>
      l.length == r.length &&
      l.attach.all fun kv =>
        match JValue.lookup kv.1.1 r with
        | some w => valuesEqual kv.1.2 w
        | none => false
  | _, _ => false
termination_by l _ => sizeOf l
decreasing_by
  all_goals simp_wf
  all_goals
    (have h1 : sizeOf kv.1 < sizeOf l := List.sizeOf_lt_of_mem kv.2;
     obtain ⟨⟨a, b⟩, hmem⟩ := kv;
     simp at h1 ⊢;
     omega)

/-- Element-wise equality of JSON arrays (Vec PartialEq). -/
def valuesEqualList : List JValue → List JValue → Bool
  | [], [] => true
  | l :: ls, r :: rs => valuesEqual l r && valuesEqualList ls rs
  | _, _ => false
termination_by l _ => sizeOf l
decreasing_by
  all_goals simp_wf
  all_goals omega
end

/-- Lexicographic order on lists of characters (Rust `String` `<`). -/
def charListLt : List Char → List Char → Bool
  | [], [] => false
  | [], _ :: _ => true
  | _ :: _, [] => false
  | c :: l, d :: r => c < d || (c == d && charListLt l r)

/-- `values_less_than` of eval.rs: only numbers and strings are ordered. -/
def valuesLessThan : JValue → JValue → Bool
  | .num l, .num r => l < r
  | .str l, .str r => charListLt l r
  | _, _ => false

/-- `compare_json_values` of eval.rs. -/
def compareJsonValues (left : JValue) (op : CompOp) (right : JValue) : Bool :=
  match op with
  | .eq => valuesEqual left right
  | .ne => !valuesEqual left right
  | .lt => valuesLessThan left right
  | .gt => valuesLessThan right left
  | .le => valuesEqual left right || valuesLessThan left right
  | .ge => valuesEqual left right || valuesLessThan right left

/-- `compare_values` of eval.rs: comparison of two filter results, with the
    absent (`Nothing`) cases of RFC 9535. -/
def compareValues (left : ExprResult) (op : CompOp) (right : ExprResult) : Bool :=
  if !left.isSingular || !right.isSingular then false
  else
    match left.toValue, right.toValue with
    | some l, some r => compareJsonValues l op r
    | none, none => op == .eq
    | _, _ => op == .ne

/-- `normalize_index` of eval.rs. -/
def normalizeIndex (idx : ℤ) (len : ℕ) : Option ℕ :=
  if idx ≥ 0 then
    if idx.toNat < len then some idx.toNat else none
  else
    if (len : ℤ) + idx ≥ 0 then some ((len : ℤ) + idx).toNat else none

/-- `normalize_slice_bound` of eval.rs. -/
def normalizeSliceBound (bound len : ℤ) : ℤ :=
  if bound ≥ 0 then bound else max (len + bound) 0

/-- `normalize_slice_bound_for_negative_step` of eval.rs. -/
def normalizeSliceBoundNeg (bound len : ℤ) : ℤ :=
  if bound ≥ 0 then bound else max (len + bound) (-1)

/-- The positive-step collection loop of `evaluate_slice`. -/
def slicePosLoop (arr : List JValue) (i stop step : ℤ) (hstep : 0 < step) :
    List JValue :=
  if _h : i < stop then
    (if 0 ≤ i ∧ i < (arr.length : ℤ) then [arr.getD i.toNat .null] else []) ++
      slicePosLoop arr (i + step) stop step hstep
  else []
termination_by (stop - i).toNat
decreasing_by omega

/-- The negative-step collection loop of `evaluate_slice`. -/
def sliceNegLoop (arr : List JValue) (i stop step : ℤ) (hstep : step < 0) :
    List JValue :=
  if _h : stop < i then
    (if 0 ≤ i ∧ i < (arr.length : ℤ) then [arr.getD i.toNat .null] else []) ++
      sliceNegLoop arr (i + step) stop step hstep
  else []
termination_by (i - stop).toNat
decreasing_by omega

/-- `evaluate_slice` of eval.rs. -/
def evaluateSlice (arr : List JValue) (start stop step : Option ℤ) :
    List JValue :=
  let len : ℤ := arr.length
  let step := step.getD 1
  if h0 : step = 0 then []
  else if hpos : 0 < step then
    let s := (start.map (normalizeSliceBound · len)).getD 0
    let e := (stop.map (normalizeSliceBound · len)).getD len
    slicePosLoop arr (max s 0) (min e len) step hpos
  else
    let s := (start.map (normalizeSliceBound · len)).getD (len - 1)
    let e := (stop.map (normalizeSliceBoundNeg · len)).getD (-1)
    sliceNegLoop arr (min s (len - 1)) (max e (-1)) step (by omega)

/-- The total size of a value's children is below its own size. -/
theorem children_sizeOf_lt (v : JValue) :
    ((JValue.children v).map sizeOf).sum < sizeOf v := by
  cases v with
  | arr xs =>
      simp only [JValue.children, JValue.arr.sizeOf_spec]
      induction xs with
      | nil => simp
      | cons x xs ih => simp at ih ⊢; omega
  | obj kvs =>
      simp only [JValue.children, JValue.obj.sizeOf_spec]
      induction kvs with
      | nil => simp
      | cons kv kvs ih =>
          obtain ⟨k, w⟩ := kv
          simp at ih ⊢; omega
  | null => simp [JValue.children]
  | bool b => simp [JValue.children]
  | num q => simp [JValue.children]
  | str s => simp [JValue.children]

/-- The work-stack loop of `collect_descendants` (eval.rs): the stack is a
    list with its head on top; pushing a value's children in reverse order
    onto a Vec is prepending them in document order here. -/
def collectDescLoop : List JValue → List JValue
  | [] => []
  | v :: stack => v :: collectDescLoop (v.children ++ stack)
termination_by stack => (stack.map sizeOf).sum
decreasing_by
  simp_wf
  have h := children_sizeOf_lt v
  simp at h ⊢
  omega

/-- `collect_descendants` of eval.rs. -/
def collectDescendants (node : JValue) : List JValue :=
  collectDescLoop [node]

/-- The loop of `transform_pattern_for_iregexp` (eval.rs), tracking whether
    the scan is inside a character class.  A backslash passes itself and the
    next character through verbatim; an unescaped `.` outside a class becomes
    the seven characters of the class `[^\r\n]`. -/
def transformLoop : List Char → Bool → List Char
  | [], _ => []
  | c :: rest, inClass =>
    if c = '\\' then
      match rest with
      | [] => [c]
      | d :: rest2 => c :: d :: transformLoop rest2 inClass
    else if c = '[' && !inClass then c :: transformLoop rest true
    else if c = ']' && inClass then c :: transformLoop rest false
    else if c = '.' && !inClass then
      '[' :: '^' :: '\\' :: 'r' :: '\\' :: 'n' :: ']' :: transformLoop rest inClass
    else c :: transformLoop rest inClass

/-- `transform_pattern_for_iregexp` of eval.rs. -/
def transformPatternForIregexp (pattern : List Char) : List Char :=
  transformLoop pattern false

/-- The anchored form `^(?:P)$` built by `fn_match`. -/
def anchorPattern (p : List Char) : List Char :=
  '^' :: '(' :: '?' :: ':' :: (p ++ [')', '$'])

/-- The external regex engine: compiling a pattern yields a matcher exactly
    when the pattern is valid (`get_or_compile_regex` returns `None` on a
    compilation failure; its thread-local cache is semantically transparent). -/
abbrev RegexEngine := List Char → Option (List Char → Bool)

mutual

/-- `evaluate_segment` of eval.rs (the top-level copy). -/
def evaluateSegment (compile : RegexEngine) (seg : Segment)
    (nodes : List JValue) (root : JValue) : List JValue :=
  match seg with
  | .child sels =>
      nodes.flatMap fun node => evalChildSelectors compile sels node root
  | .descendant sels =>
      nodes.flatMap fun node =>
        (collectDescendants node).flatMap fun desc =>
          evalChildSelectors compile sels desc root

/-- The inner selector loop of `evaluate_segment`: apply each selector of a
    segment to one node, in order, concatenating the results. -/
def evalChildSelectors (compile : RegexEngine) (sels : List Selector)
    (node : JValue) (root : JValue) : List JValue :=
  match sels with
  | [] => []
  | s :: rest =>
      evaluateSelector compile s node root ++
        evalChildSelectors compile rest node root
termination_by (sizeOf sels, 0)

/-- `evaluate_selector` of eval.rs (the top-level copy). -/
def evaluateSelector (compile : RegexEngine) (sel : Selector)
    (node : JValue) (root : JValue) : List JValue :=
  match sel with
  | .name n =>
      match node with
      | .obj kvs => (JValue.lookup n kvs).toList
      | _ => []
  | .index idx =>
      match node with
      | .arr xs => ((normalizeIndex idx xs.length).bind (xs.get? ·)).toList
      | _ => []
  | .wildcard =>
      match node with
      | .arr xs => xs
      | .obj kvs => kvs.map (·.2)
      | _ => []
  | .slice s e st =>
      match node with
      | .arr xs => evaluateSlice xs s e st
      | _ => []
  | .filter e => evaluateFilter compile e node root

/-- `evaluate_filter` of eval.rs: keep the children whose filter expression
    is truthy. -/
def evaluateFilter (compile : RegexEngine) (e : JExpr)
    (node : JValue) (root : JValue) : List JValue :=
  match node with
  | .arr xs =>
      xs.filter fun elem => (evaluateExpr compile e elem root).isTruthy
  | .obj kvs =>
      (kvs.map (·.2)).filter fun elem =>
        (evaluateExpr compile e elem root).isTruthy
  | _ => []

/-- `evaluate_expr` of eval.rs: filter-expression evaluation. -/
def evaluateExpr (compile : RegexEngine) (e : JExpr)
    (current root : JValue) : ExprResult :=
  match e with
  | .currentNode => .nodeList [current]
  | .rootNode => .value root
  | .path start segs =>
      match start with
      | .currentNode =>
          let results := evaluatePathSegments compile segs [current] root
          if results.isEmpty then .nothing else .nodeList results
      | .rootNode =>
          let results := evaluatePathSegments compile segs [root] root
          if results.isEmpty then .nothing else .nodeList results
      | _ => .nothing
  | .lit l => .value (literalToValue l)
  | .comparison left op right =>
      let lr := evaluateExpr compile left current root
      let rr := evaluateExpr compile right current root
      .value (.bool (compareValues lr op rr))
  | .logical left op right =>
      let lr := evaluateExpr compile left current root
      match op with
      | .and =>
          if !lr.isTruthy then .value (.bool false)
          else .value (.bool (evaluateExpr compile right current root).isTruthy)
      | .or =>
          if lr.isTruthy then .value (.bool true)
          else .value (.bool (evaluateExpr compile right current root).isTruthy)
  | .not inner =>
      .value (.bool (!(evaluateExpr compile inner current root).isTruthy))
  | .funcCall fname args => evaluateFunction compile fname args current root
termination_by (sizeOf e, 0)

/-- `evaluate_path_segments` of eval.rs. -/
def evaluatePathSegments (compile : RegexEngine) (segs : List Segment)
    (nodes : List JValue) (root : JValue) : List JValue :=
  match segs with
  | [] => nodes
  | seg :: rest =>
      evaluatePathSegments compile rest
        (evaluateSegmentForExpr compile seg nodes root) root
termination_by (sizeOf segs, 0)

/-- `evaluate_segment_for_expr` of eval.rs (the filter-path copy of segment
    evaluation). -/
def evaluateSegmentForExpr (compile : RegexEngine) (seg : Segment)
    (nodes : List JValue) (root : JValue) : List JValue :=
  match seg with
  | .child sels =>
      nodes.flatMap fun node => evalChildSelectorsInPath compile sels node root
  | .descendant sels =>
      nodes.flatMap fun node =>
        (collectDescendants node).flatMap fun desc =>
          evalChildSelectorsInPath compile sels desc root
termination_by (sizeOf seg, 0)

/-- The inner selector loop of `evaluate_segment_for_expr`. -/
def evalChildSelectorsInPath (compile : RegexEngine) (sels : List Selector)
    (node : JValue) (root : JValue) : List JValue :=
  match sels with
  | [] => []
  | s :: rest =>
      evaluateSelectorInPath compile s node root ++
        evalChildSelectorsInPath compile rest node root
termination_by (sizeOf sels, 0)

/-- `evaluate_selector_in_path` of eval.rs, whose `Filter` arm inlines the
    body of `evaluate_filter`. -/
def evaluateSelectorInPath (compile : RegexEngine) (sel : Selector)
    (node : JValue) (root : JValue) : List JValue :=
  match sel with
  | .name n =>
      match node with
      | .obj kvs => (JValue.lookup n kvs).toList
      | _ => []
  | .index idx =>
      match node with
      | .arr xs => ((normalizeIndex idx xs.length).bind (xs.get? ·)).toList
      | _ => []
  | .wildcard =>
      match node with
      | .arr xs => xs
      | .obj kvs => kvs.map (·.2)
      | _ => []
  | .slice s e st =>
      match node with
      | .arr xs => evaluateSlice xs s e st
      | _ => []
  | .filter e =>
      match node with
      | .arr xs =>
          xs.filter fun elem => (evaluateExpr compile e elem root).isTruthy
      | .obj kvs =>
          (kvs.map (·.2)).filter fun elem =>
            (evaluateExpr compile e elem root).isTruthy
      | _ => []
termination_by (sizeOf sel, 0)

/-- `evaluate_function` of eval.rs: dispatch on the function name. -/
def evaluateFunction (compile : RegexEngine) (fname : List Char)
    (args : List JExpr) (current root : JValue) : ExprResult :=
  if fname = "length".toList then fnLength compile args current root
  else if fname = "count".toList then fnCount compile args current root
  else if fname = "value".toList then fnValue compile args current root
  else if fname = "match".toList then fnMatch compile args current root
  else if fname = "search".toList then fnSearch compile args current root
  else .nothing
termination_by (sizeOf args, 1)

/-- `fn_length` of eval.rs. -/
def fnLength (compile : RegexEngine) (args : List JExpr)
    (current root : JValue) : ExprResult :=
  match args with
  | [a] =>
      match (evaluateExpr compile a current root).toValue with
      | some (.str s) => .value (.num s.length)
      | some (.arr xs) => .value (.num xs.length)
      | some (.obj kvs) => .value (.num kvs.length)
      | _ => .nothing
  | _ => .nothing
termination_by (sizeOf args, 0)

/-- `fn_count` of eval.rs. -/
def fnCount (compile : RegexEngine) (args : List JExpr)
    (current root : JValue) : ExprResult :=
  match args with
  | [a] =>
      match evaluateExpr compile a current root with
      | .nodeList l => .value (.num l.length)
      | .value _ => .value (.num 1)
      | .nothing => .value (.num 0)
  | _ => .nothing
termination_by (sizeOf args, 0)

/-- `fn_value` of eval.rs. -/
def fnValue (compile : RegexEngine) (args : List JExpr)
    (current root : JValue) : ExprResult :=
  match args with
  | [a] =>
      match evaluateExpr compile a current root with
      | .value v => .value v
      | .nodeList [v] => .value v
      | _ => .nothing
  | _ => .nothing
termination_by (sizeOf args, 0)

/-- `fn_match` of eval.rs: both arguments must evaluate to strings; the
    pattern is preprocessed for I-Regexp and anchored; a compilation failure
    yields `false`. -/
def fnMatch (compile : RegexEngine) (args : List JExpr)
    (current root : JValue) : ExprResult :=
  match args with
  | [a, b] =>
      let sArg := evaluateExpr compile a current root
      let pArg := evaluateExpr compile b current root
      match sArg.toValue with
      | some (.str s) =>
          match pArg.toValue with
          | some (.str p) =>
              match compile (anchorPattern (transformPatternForIregexp p)) with
              | some m => .value (.bool (m s))
              | none => .value (.bool false)
          | _ => .value (.bool false)
      | _ => .value (.bool false)
  | _ => .nothing
termination_by (sizeOf args, 0)

/-- `fn_search` of eval.rs: like `fn_match` without anchoring. -/
def fnSearch (compile : RegexEngine) (args : List JExpr)
    (current root : JValue) : ExprResult :=
  match args with
  | [a, b] =>
      let sArg := evaluateExpr compile a current root
      let pArg := evaluateExpr compile b current root
      match sArg.toValue with
      | some (.str s) =>
          match pArg.toValue with
          | some (.str p) =>
              match compile (transformPatternForIregexp p) with
              | some m => .value (.bool (m s))
              | none => .value (.bool false)
          | _ => .value (.bool false)
      | _ => .value (.bool false)
  | _ => .nothing
termination_by (sizeOf args, 0)

end

/-- The top-level segment fold of `evaluate` (eval.rs). -/
def evaluateSegments (compile : RegexEngine) (segs : List Segment)
    (nodes : List JValue) (root : JValue) : List JValue :=
  match segs with
  | [] => nodes
  | seg :: rest =>
      evaluateSegments compile rest (evaluateSegment compile seg nodes root) root

/-- `evaluate` of eval.rs: start from `[root]` and apply each segment. -/
def evaluate (compile : RegexEngine) (p : JsonPath) (root : JValue) :
    List JValue :=
  evaluateSegments compile p.segments [root] root

/-- The map-clone of `JsonPath::query` (lib.rs): cloning a serde_json value
    produces an equal value, so it is the identity on the mathematical value. -/
def cloneValue (v : JValue) : JValue := v

/-- `JsonPath::query` (lib.rs): evaluate, then clone every selected node. -/
def JsonPath.query (compile : RegexEngine) (p : JsonPath) (d : JValue) :
    List JValue :=
  (evaluate compile p d).map cloneValue

/-- `JsonPath::query_ref` (lib.rs): evaluate, returning the references
    (here: the selected values themselves). -/
def JsonPath.query_ref (compile : RegexEngine) (p : JsonPath) (d : JValue) :
    List JValue :=
  evaluate compile p d

mutual
/-- Specification-side pre-order traversal of a value: the node itself, then
    its children's subtrees in document order (array elements left to right,
    object values in insertion order).  `collectDescendants` is proved equal
    to this below. -/
def preorder : JValue → List JValue
  | .arr xs => .arr xs :: preorderList xs
  | .obj kvs => .obj kvs :: preorderObj kvs
  | .null => [.null]
  | .bool b => [.bool b]
  | .num q => [.num q]
  | .str s => [.str s]

/-- Pre-order traversal of a list of sibling values. -/
def preorderList : List JValue → List JValue
  | [] => []
  | x :: xs => preorder x ++ preorderList xs

/-- Pre-order traversal of the member values of an object. -/
def preorderObj : List (List Char × JValue) → List JValue
  | [] => []
  | kv :: rest => preorder kv.2 ++ preorderObj rest
end

theorem preorderList_eq_flatMap (xs : List JValue) :
    preorderList xs = xs.flatMap preorder := by
  induction xs with
  | nil => simp [preorderList]
  | cons x xs ih => simp [preorderList, ih]

theorem preorderObj_eq_flatMap (kvs : List (List Char × JValue)) :
    preorderObj kvs = (kvs.map (·.2)).flatMap preorder := by
  induction kvs with
  | nil => simp [preorderObj]
  | cons kv rest ih => simp [preorderObj, ih]

/-- One-step unfolding of `preorder` through `children`. -/
theorem preorder_eq_cons (v : JValue) :
    preorder v = v :: v.children.flatMap preorder := by
  cases v <;>
    simp [preorder, JValue.children, preorderList_eq_flatMap, preorderObj_eq_flatMap]

/-- A child is structurally smaller than its parent. -/
theorem sizeOf_child_lt {c v : JValue} (h : c ∈ v.children) :
    sizeOf c < sizeOf v := by
  cases v with
  | arr xs =>
      simp only [JValue.children] at h
      have := List.sizeOf_lt_of_mem h
      simp; omega
  | obj kvs =>
      simp only [JValue.children, List.mem_map] at h
      obtain ⟨kv, hkv, rfl⟩ := h
      have h1 := List.sizeOf_lt_of_mem hkv
      obtain ⟨k, w⟩ := kv
      simp at h1 ⊢; omega
  | null => simp [JValue.children] at h
  | bool b => simp [JValue.children] at h
  | num q => simp [JValue.children] at h
  | str s => simp [JValue.children] at h

/-- Induction on a value via its children. -/
theorem JValue.childrenInduction {motive : JValue → Prop}
    (step : ∀ v, (∀ c ∈ JValue.children v, motive c) → motive v) :
    ∀ v, motive v := by
  have key : ∀ n (v : JValue), sizeOf v ≤ n → motive v := by
    intro n
    induction n with
    | zero =>
        intro v hv
        exact absurd hv (by cases v <;> simp)
    | succ n ih =>
        intro v hv
        exact step v fun c hc => ih c (by have := sizeOf_child_lt hc; omega)
  intro v
  exact key (sizeOf v) v le_rfl

/-- The work-stack loop produces the concatenated pre-orders of the stack. -/
theorem collectDescLoop_eq_flatMap (stack : List JValue) :
    collectDescLoop stack = stack.flatMap preorder := by
  have key : ∀ n (st : List JValue), (st.map sizeOf).sum ≤ n →
      collectDescLoop st = st.flatMap preorder := by
    intro n
    induction n with
    | zero =>
        intro st hst
        cases st with
        | nil => simp [collectDescLoop]
        | cons v rest =>
            exact absurd hst (by cases v <;> simp)
    | succ n ih =>
        intro st hst
        cases st with
        | nil => simp [collectDescLoop]
        | cons v rest =>
            rw [collectDescLoop, ih (v.children ++ rest)
              (by
                have := children_sizeOf_lt v
                simp at hst ⊢
                omega)]
            simp [preorder_eq_cons v]
  exact key ((stack.map sizeOf).sum) stack le_rfl

/-- `collect_descendants` computes exactly the pre-order descendant list,
    the node itself included. -/
theorem collectDescendants_eq_preorder (v : JValue) :
    collectDescendants v = preorder v := by
  simp [collectDescendants, collectDescLoop_eq_flatMap]

/-- Stated from the claim's words: the sequence of all non-root nodes of a
    document in pre-order — each node before its children, array elements
    left to right, object values in insertion order. -/
def specNonRootPreorder (d : JValue) : List JValue :=
  d.children.flatMap preorder

/-- The wildcard selector yields exactly the children of a node. -/
theorem evaluateSelector_wildcard (compile : RegexEngine) (node root : JValue) :
    evaluateSelector compile .wildcard node root = node.children := by
  cases node <;> simp [evaluateSelector, JValue.children]

theorem evalChildSelectors_single (compile : RegexEngine) (s : Selector)
    (node root : JValue) :
    evalChildSelectors compile [s] node root = evaluateSelector compile s node root := by
  simp [evalChildSelectors]

/-- What `$..*` actually evaluates to: the children of every node of the
    document, taken in pre-order of the nodes. -/
theorem evaluate_descendant_wildcard (compile : RegexEngine) (d : JValue) :
    evaluate compile ⟨[.descendant [.wildcard]]⟩ d =
      (preorder d).flatMap JValue.children := by
  simp only [evaluate, evaluateSegments, evaluateSegment,
    collectDescendants_eq_preorder, List.flatMap_cons, List.flatMap_nil,
    List.append_nil]
  exact List.flatMap_congr fun x _ => by
    rw [evalChildSelectors_single, evaluateSelector_wildcard]

/-- Listing each element before its block is a permutation of all elements
    followed by all blocks. -/
theorem flatMap_cons_perm {α : Type} (l : List α) (f : α → List α) :
    (l.flatMap fun c => c :: f c).Perm (l ++ l.flatMap f) := by
  induction l with
  | nil => simp
  | cons c l ih =>
      simp only [List.flatMap_cons, List.cons_append]
      refine List.Perm.cons c ?_
      refine (List.Perm.append_left (f c) ih).trans ?_
      refine (List.perm_append_comm).trans ?_
      rw [List.append_assoc]
      exact List.Perm.append_left l List.perm_append_comm

/-- The children of the pre-order nodes are a permutation of the non-root
    nodes in pre-order. -/
theorem preorder_children_perm :
    ∀ v : JValue,
      ((preorder v).flatMap JValue.children).Perm (v.children.flatMap preorder) := by
  refine JValue.childrenInduction ?_
  intro v ih
  rw [preorder_eq_cons, List.flatMap_cons, List.flatMap_assoc]
  have step1 :
      (v.children.flatMap fun c => (preorder c).flatMap JValue.children).Perm
        (v.children.flatMap fun c => c.children.flatMap preorder) :=
    List.Perm.flatMap_left _ fun c hc => ih c hc
  have step2 :
      (v.children.flatMap fun c => c :: c.children.flatMap preorder).Perm
        (v.children ++ v.children.flatMap fun c => c.children.flatMap preorder) :=
    flatMap_cons_perm _ _
  have step3 : v.children.flatMap preorder =
      v.children.flatMap fun c => c :: c.children.flatMap preorder :=
    List.flatMap_congr fun c _ => preorder_eq_cons c
  rw [step3]
  exact ((List.Perm.append_left v.children step1).trans step2.symm)

/-- C3, counterexample.  On the document `[[1,2],3]`, the query `$..*`
    produces `[[1,2], 3, 1, 2]` — the children of each pre-order node — while
    the pre-order sequence of the non-root nodes is `[[1,2], 1, 2, 3]`; the
    two node lists differ, so `$..*` is not the non-root nodes in pre-order. -/
theorem claim3_descendant_wildcard_counterexample :
    evaluate (fun _ => none) ⟨[.descendant [.wildcard]]⟩
        (.arr [.arr [.num 1, .num 2], .num 3]) =
      [.arr [.num 1, .num 2], .num 3, .num 1, .num 2]
    ∧ specNonRootPreorder (.arr [.arr [.num 1, .num 2], .num 3]) =
      [.arr [.num 1, .num 2], .num 1, .num 2, .num 3]
    ∧ evaluate (fun _ => none) ⟨[.descendant [.wildcard]]⟩
        (.arr [.arr [.num 1, .num 2], .num 3]) ≠
      specNonRootPreorder (.arr [.arr [.num 1, .num 2], .num 3]) := by
  have h1 : evaluate (fun _ => none) ⟨[.descendant [.wildcard]]⟩
      (.arr [.arr [.num 1, .num 2], .num 3]) =
      [.arr [.num 1, .num 2], .num 3, .num 1, .num 2] := by
    simp [evaluate, evaluateSegments, evaluateSegment, evalChildSelectors,
      evaluateSelector, collectDescendants, collectDescLoop, JValue.children]
  have h2 : specNonRootPreorder (.arr [.arr [.num 1, .num 2], .num 3]) =
      [.arr [.num 1, .num 2], .num 1, .num 2, .num 3] := by
    simp [specNonRootPreorder, JValue.children, preorder, preorderList]
  refine ⟨h1, h2, ?_⟩
  rw [h1, h2]
  intro h
  simp only [List.cons.injEq, JValue.num.injEq] at h
  norm_num at h

/-- C3, amended.  For every document `d`, `$..*` produces, for each node of
    `d` in pre-order (the root included), that node's immediate children in
    document order; descendant evaluation does compute each input node's
    descendant set in pre-order including the node itself
    (`collectDescendants d = preorder d`) and then applies the selector list
    to each descendant.  The resulting node list is a permutation of the
    non-root nodes of `d` (each appearing exactly as often as in pre-order),
    but not in general the pre-order sequence itself. -/
theorem claim3_descendant_wildcard (compile : RegexEngine) (d : JValue) :
    evaluate compile ⟨[.descendant [.wildcard]]⟩ d =
      (preorder d).flatMap JValue.children
    ∧ collectDescendants d = preorder d
    ∧ (evaluate compile ⟨[.descendant [.wildcard]]⟩ d).Perm
        (specNonRootPreorder d) := by
  refine ⟨evaluate_descendant_wildcard compile d,
    collectDescendants_eq_preorder d, ?_⟩
  rw [evaluate_descendant_wildcard compile d]
  exact preorder_children_perm d

theorem evaluateSelector_eq_inPath (compile : RegexEngine) (sel : Selector)
    (node root : JValue) :
    evaluateSelector compile sel node root =
      evaluateSelectorInPath compile sel node root := by
  cases sel <;> cases node <;>
    simp [evaluateSelector, evaluateSelectorInPath, evaluateFilter]

theorem evalChildSelectors_eq_inPath (compile : RegexEngine)
    (sels : List Selector) (node root : JValue) :
    evalChildSelectors compile sels node root =
      evalChildSelectorsInPath compile sels node root := by
  induction sels with
  | nil => simp [evalChildSelectors, evalChildSelectorsInPath]
  | cons s rest ih =>
      simp [evalChildSelectors, evalChildSelectorsInPath,
        evaluateSelector_eq_inPath, ih]

/-- C9.  The two copies of segment evaluation are functionally identical:
    for every segment, every input node list and every root document, the
    top-level segment evaluator and the filter-path segment evaluator return
    exactly the same node list. -/
theorem claim9_segment_copies_agree (compile : RegexEngine) (seg : Segment)
    (nodes : List JValue) (root : JValue) :
    evaluateSegment compile seg nodes root =
      evaluateSegmentForExpr compile seg nodes root := by
  cases seg <;>
    simp [evaluateSegment, evaluateSegmentForExpr, evalChildSelectors_eq_inPath]

/-- C10.  The owned-value API agrees with the zero-copy API: `query` has the
    same length and order as `query_ref`, and its i-th element equals (as a
    JSON value) the value referenced by the i-th element of `query_ref`. -/
theorem claim10_query_agrees_with_query_ref (compile : RegexEngine)
    (p : JsonPath) (d : JValue) :
    (JsonPath.query compile p d).length = (JsonPath.query_ref compile p d).length
    ∧ ∀ i, (JsonPath.query compile p d).get? i =
        (JsonPath.query_ref compile p d).get? i := by
  constructor <;>
    simp [JsonPath.query, JsonPath.query_ref, show cloneValue = id from rfl]

/-- The filter expression `@.k`. -/
def atKey (k : List Char) : JExpr := .path .currentNode [.child [.name k]]

theorem evaluateExpr_atKey (compile : RegexEngine) (k : List Char)
    (kvs : List (List Char × JValue)) (root : JValue) :
    evaluateExpr compile (atKey k) (.obj kvs) root =
      match JValue.lookup k kvs with
      | some v => .nodeList [v]
      | none => .nothing := by
  cases h : JValue.lookup k kvs <;>
    simp [atKey, evaluateExpr, evaluatePathSegments, evaluateSegmentForExpr,
      evalChildSelectorsInPath, evaluateSelectorInPath, h]

theorem valuesEqual_null_iff (v : JValue) :
    valuesEqual v .null = true ↔ v = .null := by
  cases v <;> simp [valuesEqual]

/-- C1.  On an object node, `@.k == null` is truthy exactly when `k` is
    present with value JSON `null`; when `k` is missing, `@.k == null`
    evaluates to `false` and `@.k != null` to `true`; the bare existence test
    `@.k` is truthy exactly when `k` is present (even when its value is
    `null`); in general a comparison with exactly one side absent is true
    only for `!=`, one with both sides absent is true only for `==`, and the
    ordering operators are false whenever a side is absent. -/
theorem claim1_null_vs_missing (compile : RegexEngine)
    (kvs : List (List Char × JValue)) (k : List Char) (root : JValue) :
    (((evaluateExpr compile (.comparison (atKey k) .eq (.lit .null))
          (.obj kvs) root).isTruthy = true)
        ↔ JValue.lookup k kvs = some .null)
    ∧ (JValue.lookup k kvs = none →
        evaluateExpr compile (.comparison (atKey k) .eq (.lit .null))
            (.obj kvs) root = .value (.bool false)
          ∧ evaluateExpr compile (.comparison (atKey k) .ne (.lit .null))
            (.obj kvs) root = .value (.bool true))
    ∧ ((evaluateExpr compile (atKey k) (.obj kvs) root).isTruthy
        = (JValue.lookup k kvs).isSome)
    ∧ (∀ (op : CompOp) (r : JValue),
        compareValues .nothing op (.value r) = (op == .ne)
          ∧ compareValues (.value r) op .nothing = (op == .ne))
    ∧ (∀ op : CompOp, compareValues .nothing op .nothing = (op == .eq)) := by
  refine ⟨?_, ?_, ?_, ?_, ?_⟩
  · cases h : JValue.lookup k kvs with
    | none =>
        simp [evaluateExpr, evaluateExpr_atKey, h, compareValues,
          ExprResult.isSingular, ExprResult.toValue, ExprResult.isTruthy,
          literalToValue, valueIsTruthy]
    | some v =>
        simp [evaluateExpr, evaluateExpr_atKey, h, compareValues,
          ExprResult.isSingular, ExprResult.toValue, ExprResult.isTruthy,
          literalToValue, valueIsTruthy, compareJsonValues,
          valuesEqual_null_iff]
  · intro h
    constructor <;>
      simp [evaluateExpr, evaluateExpr_atKey, h, compareValues,
        ExprResult.isSingular, ExprResult.toValue, literalToValue]
  · cases h : JValue.lookup k kvs <;>
      simp [evaluateExpr_atKey, h, ExprResult.isTruthy]
  · intro op r
    constructor <;> cases op <;>
      simp [compareValues, ExprResult.isSingular, ExprResult.toValue]
  · intro op
    cases op <;> simp [compareValues, ExprResult.isSingular, ExprResult.toValue]

/-- Witness for C1 at a concrete object. -/
theorem claim1_null_vs_missing_witness :
    JValue.lookup "a".toList [] = none
    ∧ evaluateExpr (fun _ => none)
        (.comparison (atKey "a".toList) .eq (.lit .null)) (.obj []) .null
        = .value (.bool false)
    ∧ evaluateExpr (fun _ => none)
        (.comparison (atKey "a".toList) .ne (.lit .null)) (.obj []) .null
        = .value (.bool true) := by
  have h := (claim1_null_vs_missing (fun _ => none) [] "a".toList .null).2.1
    (by simp [JValue.lookup])
  exact ⟨by simp [JValue.lookup], h.1, h.2⟩

/-- C7.  `length(v)` returns the count of Unicode scalar values for a string
    (1 for both a two-byte and a four-byte scalar — not the byte count), the
    element count for an array, the key count for an object, and `Nothing`
    for every other argument, including numbers, booleans, `null`, and an
    absent value. -/
theorem claim7_length_semantics (compile : RegexEngine) (root : JValue) :
    (∀ v : JValue, fnLength compile [.currentNode] v root =
      match v with
      | .str s => .value (.num s.length)
      | .arr xs => .value (.num xs.length)
      | .obj kvs => .value (.num kvs.length)
      | _ => .nothing)
    ∧ (∀ (k : List Char) (kvs : List (List Char × JValue)),
        JValue.lookup k kvs = none →
          fnLength compile [atKey k] (.obj kvs) root = .nothing)
    ∧ fnLength compile [.lit (.str ['é'])] .null root = .value (.num 1)
    ∧ (['é'].map Char.utf8Size).sum = 2
    ∧ fnLength compile [.lit (.str [Char.ofNat 0x1F600])] .null root
        = .value (.num 1)
    ∧ ([Char.ofNat 0x1F600].map Char.utf8Size).sum = 4 := by
  refine ⟨?_, ?_, ?_, by decide, ?_, by decide⟩
  · intro v
    cases v <;> simp [fnLength, evaluateExpr, ExprResult.toValue]
  · intro k kvs h
    simp [fnLength, evaluateExpr_atKey, h, ExprResult.toValue]
  · simp [fnLength, evaluateExpr, ExprResult.toValue, literalToValue]
  · simp [fnLength, evaluateExpr, ExprResult.toValue, literalToValue]

/-- Witness for C7: `length` of a missing member is `Nothing`. -/
theorem claim7_length_semantics_witness :
    fnLength (fun _ => none) [atKey "a".toList] (.obj []) .null = .nothing :=
  (claim7_length_semantics (fun _ => none) .null).2.1 "a".toList []
    (by simp [JValue.lookup])

/-- The JSON type of a value, used to state the cross-type comparison rules. -/
def typeTag : JValue → ℕ
  | .null => 0
  | .bool _ => 1
  | .num _ => 2
  | .str _ => 3
  | .arr _ => 4
  | .obj _ => 5

theorem cross_type_not_comparable {l r : JValue} (h : typeTag l ≠ typeTag r) :
    valuesEqual l r = false ∧ valuesLessThan l r = false
      ∧ valuesLessThan r l = false := by
  cases l <;> cases r <;> simp_all [typeTag, valuesEqual, valuesLessThan]

/-- C2.  Evaluation is total by construction — every evaluator function of
    this embedding is a total Lean function returning a node list, an
    `ExprResult`, or a boolean for every parsed AST and every document — and
    each ill-typed or undefined case resolves to an empty node list,
    `Nothing`, or `false`: a `Name` selector on an array, an `Index` selector
    on an object, a missing key, an out-of-range or negative-out-of-range
    index, a step-zero slice, and any selector applied to a scalar each give
    the empty node list; a `match` whose pattern fails to compile gives
    `Bool(false)`; and ordering comparisons between values of different JSON
    types are `false`. -/
theorem claim2_evaluation_total (compile : RegexEngine) :
    (∀ (n : List Char) (xs : List JValue) (root : JValue),
        evaluateSelector compile (.name n) (.arr xs) root = [])
    ∧ (∀ (i : ℤ) (kvs : List (List Char × JValue)) (root : JValue),
        evaluateSelector compile (.index i) (.obj kvs) root = [])
    ∧ (∀ (k : List Char) (kvs : List (List Char × JValue)) (root : JValue),
        JValue.lookup k kvs = none →
          evaluateSelector compile (.name k) (.obj kvs) root = [])
    ∧ (∀ (i : ℤ) (xs : List JValue) (root : JValue),
        ((xs.length : ℤ) ≤ i ∨ i + (xs.length : ℤ) < 0) →
          evaluateSelector compile (.index i) (.arr xs) root = [])
    ∧ (∀ (s e : Option ℤ) (xs : List JValue) (root : JValue),
        evaluateSelector compile (.slice s e (some 0)) (.arr xs) root = [])
    ∧ (∀ (sel : Selector) (root : JValue),
        evaluateSelector compile sel .null root = [])
    ∧ (∀ (s p : List Char) (current root : JValue),
        compile (anchorPattern (transformPatternForIregexp p)) = none →
          fnMatch compile [.lit (.str s), .lit (.str p)] current root
            = .value (.bool false))
    ∧ (∀ (l r : JValue) (op : CompOp),
        typeTag l ≠ typeTag r → op = .lt ∨ op = .gt ∨ op = .le ∨ op = .ge →
          compareJsonValues l op r = false) := by
  refine ⟨?_, ?_, ?_, ?_, ?_, ?_, ?_, ?_⟩
  · intro n xs root; simp [evaluateSelector]
  · intro i kvs root; simp [evaluateSelector]
  · intro k kvs root h; simp [evaluateSelector, h]
  · intro i xs root h
    have hn : normalizeIndex i xs.length = none := by
      unfold normalizeIndex
      split_ifs with h1 h2 h3
      · exfalso; omega
      · rfl
      · exfalso; omega
      · rfl
    simp [evaluateSelector, hn]
  · intro s e xs root; simp [evaluateSelector, evaluateSlice]
  · intro sel root; cases sel <;> simp [evaluateSelector, evaluateFilter]
  · intro s p current root h
    simp [fnMatch, evaluateExpr, ExprResult.toValue, literalToValue, h]
  · intro l r op hne hop
    obtain ⟨he, hlt, hgt⟩ := cross_type_not_comparable hne
    rcases hop with rfl | rfl | rfl | rfl <;>
      simp [compareJsonValues, he, hlt, hgt]

/-- Witness for C2 at concrete inputs. -/
theorem claim2_evaluation_total_witness :
    evaluateSelector (fun _ => none) (.name "a".toList) (.obj []) .null = []
    ∧ evaluateSelector (fun _ => none) (.index 2)
        (.arr [.num 1, .num 2]) .null = []
    ∧ fnMatch (fun _ => none) [.lit (.str "x".toList), .lit (.str "(".toList)]
        .null .null = .value (.bool false)
    ∧ compareJsonValues (.num 1) .lt (.str "a".toList) = false := by
  refine ⟨(claim2_evaluation_total (fun _ => none)).2.2.1 "a".toList [] .null
      (by simp [JValue.lookup]),
    (claim2_evaluation_total (fun _ => none)).2.2.2.1 2 [.num 1, .num 2] .null
      (by simp),
    (claim2_evaluation_total (fun _ => none)).2.2.2.2.2.2.1 "x".toList
      "(".toList .null .null rfl,
    (claim2_evaluation_total (fun _ => none)).2.2.2.2.2.2.2 (.num 1)
      (.str "a".toList) .lt (by simp [typeTag]) (by simp)⟩

theorem slicePosLoop_one (xs : List JValue) :
    ∀ (n : ℕ) (i : ℤ), 0 ≤ i → ((xs.length : ℤ) - i).toNat = n →
      slicePosLoop xs i (xs.length : ℤ) 1 one_pos = xs.drop i.toNat := by
  intro n
  induction n with
  | zero =>
      intro i h0 hn
      rw [slicePosLoop]
      have hge : ¬ i < (xs.length : ℤ) := by omega
      rw [dif_neg hge, List.drop_eq_nil_of_le (by omega)]
  | succ n ih =>
      intro i h0 hn
      rw [slicePosLoop]
      have hlt : i < (xs.length : ℤ) := by omega
      rw [dif_pos hlt, if_pos ⟨h0, hlt⟩, ih (i + 1) (by omega) (by omega)]
      have h2 : (i + 1).toNat = i.toNat + 1 := by omega
      have hb : i.toNat < xs.length := by omega
      rw [h2, List.getD_eq_getElem _ _ hb]
      exact (List.drop_eq_getElem_cons hb).symm

theorem sliceNegLoop_rev (xs : List JValue) :
    ∀ (n : ℕ) (i : ℤ), i < (xs.length : ℤ) → (i + 1).toNat = n →
      sliceNegLoop xs i (-1) (-1) (by norm_num) = (xs.take (i + 1).toNat).reverse := by
  intro n
  induction n with
  | zero =>
      intro i hlen hn
      rw [sliceNegLoop]
      have hng : ¬ (-1 : ℤ) < i := by omega
      rw [dif_neg hng, hn, List.take_zero, List.reverse_nil]
  | succ n ih =>
      intro i hlen hn
      rw [sliceNegLoop]
      have hgt : (-1 : ℤ) < i := by omega
      rw [dif_pos hgt, if_pos ⟨by omega, hlen⟩, ih (i + -1) (by omega) (by omega)]
      have h1 : (i + -1 + 1).toNat = i.toNat := by omega
      have h2 : (i + 1).toNat = i.toNat + 1 := by omega
      have hb : i.toNat < xs.length := by omega
      rw [h1, h2, List.getD_eq_getElem _ _ hb, List.take_succ,
        List.getElem?_eq_getElem hb, List.reverse_append]
      rfl

theorem evaluateSlice_colons_one (xs : List JValue) :
    evaluateSlice xs none none (some 1) = xs := by
  have h := slicePosLoop_one xs ((xs.length : ℤ) - 0).toNat 0 le_rfl rfl
  simp only [Int.toNat_zero, List.drop_zero] at h
  unfold evaluateSlice
  norm_num
  convert h using 2

theorem evaluateSlice_zero_len (xs : List JValue) :
    evaluateSlice xs (some 0) (some (xs.length : ℤ)) none = xs := by
  have h := slicePosLoop_one xs ((xs.length : ℤ) - 0).toNat 0 le_rfl rfl
  simp only [Int.toNat_zero, List.drop_zero] at h
  unfold evaluateSlice
  norm_num [normalizeSliceBound]
  convert h using 2

theorem evaluateSlice_rev (xs : List JValue) :
    evaluateSlice xs none none (some (-1)) = xs.reverse := by
  have h := sliceNegLoop_rev xs ((xs.length : ℤ) - 1 + 1).toNat
    ((xs.length : ℤ) - 1) (by omega) rfl
  unfold evaluateSlice
  norm_num
  have h2 : ((xs.length : ℤ) - 1 + 1).toNat = xs.length := by omega
  rw [h2, List.take_length] at h
  convert h using 2


/-- C4.  On every array: `$[::1]` selects the same node list as `$[*]`;
    `$[::-1]` selects the elements in exact reverse order; `$[0:n]` with
    `n = length(A)` selects the same node list as `$[*]`; and any slice with
    step 0 selects the empty node list. -/
theorem claim4_slice_identities (compile : RegexEngine) (xs : List JValue) :
    (evaluate compile ⟨[.child [.slice none none (some 1)]]⟩ (.arr xs)
      = evaluate compile ⟨[.child [.wildcard]]⟩ (.arr xs))
    ∧ (evaluate compile ⟨[.child [.slice none none (some (-1))]]⟩ (.arr xs)
      = xs.reverse)
    ∧ (evaluate compile ⟨[.child [.slice (some 0) (some (xs.length : ℤ)) none]]⟩
        (.arr xs)
      = evaluate compile ⟨[.child [.wildcard]]⟩ (.arr xs))
    ∧ (∀ s e : Option ℤ,
        evaluate compile ⟨[.child [.slice s e (some 0)]]⟩ (.arr xs) = []) := by
  refine ⟨?_, ?_, ?_, ?_⟩
  · simp [evaluate, evaluateSegments, evaluateSegment, evalChildSelectors,
      evaluateSelector, evaluateSlice_colons_one]
  · simp [evaluate, evaluateSegments, evaluateSegment, evalChildSelectors,
      evaluateSelector, evaluateSlice_rev]
  · simp [evaluate, evaluateSegments, evaluateSegment, evalChildSelectors,
      evaluateSelector, evaluateSlice_zero_len]
  · intro s e
    simp [evaluate, evaluateSegments, evaluateSegment, evalChildSelectors,
      evaluateSelector, evaluateSlice]

/-- C6.  With both arguments strings, `match(s, p)` returns
    `Value(Bool(true))` exactly when the engine's matcher for the anchored,
    I-Regexp-preprocessed pattern `^(?:P)$` accepts `s`; every unescaped `.`
    outside a character class of `p` is rewritten to `[^\r\n]` and backslash
    escapes pass through verbatim; if either argument is not a string or the
    pattern fails to compile the result is `Value(Bool(false))` — never an
    error. -/
theorem claim6_match_semantics (compile : RegexEngine) (current root : JValue) :
    (∀ s p : List Char,
        fnMatch compile [.lit (.str s), .lit (.str p)] current root =
          .value (.bool
            (((compile (anchorPattern (transformPatternForIregexp p))).map
                (fun m => m s)).getD false)))
    ∧ (∀ (s : List Char) (q : ℚ),
        fnMatch compile [.lit (.str s), .lit (.num q)] current root
            = .value (.bool false)
          ∧ fnMatch compile [.lit (.num q), .lit (.str s)] current root
            = .value (.bool false))
    ∧ (∀ (v : JValue) (p : List Char), (∀ s, v ≠ .str s) →
        fnMatch compile [.currentNode, .lit (.str p)] v root
          = .value (.bool false))
    ∧ transformPatternForIregexp "a.b".toList = "a[^\\r\\n]b".toList
    ∧ transformPatternForIregexp "a\\.b".toList = "a\\.b".toList
    ∧ transformPatternForIregexp "[a.]b.".toList = "[a.]b[^\\r\\n]".toList
    ∧ anchorPattern "ab".toList = "^(?:ab)$".toList := by
  refine ⟨?_, ?_, ?_, by decide, by decide, by decide, by decide⟩
  · intro s p
    cases hc : compile (anchorPattern (transformPatternForIregexp p)) <;>
      simp [fnMatch, evaluateExpr, ExprResult.toValue, literalToValue, hc]
  · intro s q
    constructor <;>
      simp [fnMatch, evaluateExpr, ExprResult.toValue, literalToValue]
  · intro v p hv
    cases v <;>
      simp [fnMatch, evaluateExpr, ExprResult.toValue, literalToValue]
    exact absurd rfl (hv _)

/-- Witness for C6: a number is not a string, so `match(@, p)` on a numeric
    current node is `false`. -/
theorem claim6_match_semantics_witness :
    fnMatch (fun _ => none) [.currentNode, .lit (.str "a".toList)]
      (.num 1) .null = .value (.bool false) :=
  (claim6_match_semantics (fun _ => none) (.num 1) .null).2.2.1 (.num 1)
    "a".toList (by intro s h; cases h)

/-! ### Lexer (lexer.rs) -/

/-- Token kinds (lexer.rs `TokenKind`).  The `number` token carries the exact
    rational value of the literal, its literal sign (`neg`, true for a
    leading minus — this equals `f64::is_sign_negative` of the parsed value
    for this number grammar, distinguishing a negative zero), and the flag
    recording whether a fraction or exponent was present; `neg` and the flag
    encode what the `f64` payload of the source carries beyond the rational
    value.  The flag is the field parser.rs consumes as
    `has_decimal_or_exp` when it pattern-matches `Number(n, flag)`. -/
inductive TokenKind where
  | root | at_ | dot | dotdot | bracketOpen | bracketClose
  | parenOpen | parenClose | wildcardTok | colon | comma | question
  | lessThan | greaterThan | lessEq | greaterEq | equal | notEqual
  | andOp | orOp | notOp | trueKw | falseKw | nullKw
  | ident (s : List Char)
  | strLit (s : List Char)
  | number (v : ℚ) (neg : Bool) (fracExp : Bool)
deriving DecidableEq, Repr

/-- A token with its zero-based position (lexer.rs `Token`). -/
structure Token where
  kind : TokenKind
  position : ℕ
deriving DecidableEq, Repr

/-- `LexerError` of lexer.rs (messages paraphrased). -/
structure LexerError where
  message : List Char
  position : ℕ
deriving DecidableEq, Repr

/-- Rust `char::is_whitespace`: the Unicode White_Space property. -/
def rustIsWhitespace (c : Char) : Bool :=
  let n := c.toNat
  n == 0x09 || n == 0x0A || n == 0x0B || n == 0x0C || n == 0x0D ||
  n == 0x20 || n == 0x85 || n == 0xA0 || n == 0x1680 ||
  (0x2000 ≤ n && n ≤ 0x200A) || n == 0x2028 || n == 0x2029 ||
  n == 0x202F || n == 0x205F || n == 0x3000

/-- `is_ident_start` of lexer.rs (RFC 9535 name-first). -/
def isIdentStart (c : Char) : Bool :=
  c.isAlpha || c == '_' ||
    (0x80 ≤ c.toNat && c.toNat ≤ 0xD7FF) ||
    (0xE000 ≤ c.toNat && c.toNat ≤ 0x10FFFF)

/-- `is_ident_char` of lexer.rs (RFC 9535 name-char). -/
def isIdentChar (c : Char) : Bool :=
  isIdentStart c || c.isDigit

/-- `skip_whitespace` of lexer.rs: the position advances once per character
    consumed. -/
def skipWhitespace : List Char → ℕ → List Char × ℕ
  | [], pos => ([], pos)
  | c :: rest, pos =>
      if rustIsWhitespace c then skipWhitespace rest (pos + 1)
      else (c :: rest, pos)

/-- Value of an ASCII hex digit, if any (Rust `is_ascii_hexdigit` plus the
    radix-16 conversion). -/
def hexDigitVal (c : Char) : Option ℕ :=
  if '0' ≤ c ∧ c ≤ '9' then some (c.toNat - 48)
  else if 'a' ≤ c ∧ c ≤ 'f' then some (c.toNat - 97 + 10)
  else if 'A' ≤ c ∧ c ≤ 'F' then some (c.toNat - 65 + 10)
  else none

/-- `read_unicode_escape` of lexer.rs, reading `n` hex digits: a failed
    `advance` (non-hex-digit consumed, or end of input) reports the position
    reached at that point. -/
def readHexDigits : ℕ → ℕ → List Char → ℕ →
    Except LexerError (ℕ × List Char × ℕ)
  | 0, acc, chars, pos => .ok (acc, chars, pos)
  | n + 1, acc, chars, pos =>
      match chars with
      | [] =>
          .error ⟨"invalid unicode escape: expected 4 hex digits".toList, pos⟩
      | c :: rest =>
          match hexDigitVal c with
          | some v => readHexDigits n (acc * 16 + v) rest (pos + 1)
          | none =>
              .error
                ⟨"invalid unicode escape: expected 4 hex digits".toList, pos + 1⟩

/-- `char::from_u32`: some scalar value, unless a surrogate or out of range. -/
def charFromU32 (n : ℕ) : Option Char :=
  if h : n.isValidChar then some (Char.ofNatAux n h) else none

/-- The apostrophe character (U+0027). -/
def squote : Char := Char.ofNat 39

/-- The `u` arm of the escape handling in `read_string` (lexer.rs): read a
    `\\uXXXX` code, and when it is a high surrogate demand `\\u` plus a low
    surrogate, combining the pair.  `chars` starts after the `u`; `pos` is
    the position after consuming the backslash and the `u`. -/
def readUnicodeScalar (chars : List Char) (pos : ℕ) :
    Except LexerError (Char × List Char × ℕ) :=
  match readHexDigits 4 0 chars pos with
  | .error err => .error err
  | .ok (code, rest, pos2) =>
      if 0xD800 ≤ code ∧ code ≤ 0xDBFF then
        match rest with
        | [] => .error ⟨"invalid surrogate pair".toList, pos2⟩
        | c1 :: rest2 =>
            if c1 ≠ '\\' then
              .error ⟨"invalid surrogate pair".toList, pos2 + 1⟩
            else
              match rest2 with
              | [] => .error ⟨"invalid surrogate pair".toList, pos2 + 1⟩
              | c2 :: rest3 =>
                  if c2 ≠ 'u' then
                    .error ⟨"invalid surrogate pair".toList, pos2 + 2⟩
                  else
                    match readHexDigits 4 0 rest3 (pos2 + 2) with
                    | .error err => .error err
                    | .ok (low, rest4, pos4) =>
                        if 0xDC00 ≤ low ∧ low ≤ 0xDFFF then
                          match charFromU32
                              (0x10000 + (code - 0xD800) * 1024 +
                                (low - 0xDC00)) with
                          | some ch => .ok (ch, rest4, pos4)
                          | none =>
                              .error
                                ⟨"invalid unicode code point".toList, pos4⟩
                        else
                          .error ⟨"invalid low surrogate".toList, pos4⟩
      else
        match charFromU32 code with
        | some ch => .ok (ch, rest, pos2)
        | none => .error ⟨"invalid unicode code point".toList, pos2⟩

/-- The escape dispatch of `read_string` (lexer.rs): `chars` starts at the
    character after the backslash, `pos` is the position after consuming the
    backslash.  Returns the decoded character. -/
def readEscape (chars : List Char) (pos : ℕ) :
    Except LexerError (Char × List Char × ℕ) :=
  match chars with
  | [] => .error ⟨"unexpected end of input in escape sequence".toList, pos⟩
  | e :: rest =>
      if e = 'n' then .ok ('\n', rest, pos + 1)
      else if e = 't' then .ok ('\t', rest, pos + 1)
      else if e = 'r' then .ok ('\r', rest, pos + 1)
      else if e = '\\' ∨ e = squote ∨ e = '"' ∨ e = '/' then
        .ok (e, rest, pos + 1)
      else if e = 'b' then .ok (Char.ofNat 0x08, rest, pos + 1)
      else if e = 'f' then .ok (Char.ofNat 0x0C, rest, pos + 1)
      else if e = 'u' then readUnicodeScalar rest (pos + 1)
      else .error ⟨"invalid escape sequence".toList, pos + 1 - 1⟩

/-- The loop of `read_string` (lexer.rs): decode characters until the
    closing `quote`.  `startPos` is the position just after the opening
    quote, used by the unterminated-string error.  `fuel` only bounds the
    recursion; every iteration consumes at least one character, so the fuel
    supplied by `readString` (remaining length + 1) cannot run out. -/
def readStringLoop (quote : Char) (startPos : ℕ) :
    ℕ → List Char → ℕ → List Char →
      Except LexerError (TokenKind × List Char × ℕ)
  | 0, _, pos, _ => .error ⟨"fuel exhausted".toList, pos⟩
  | fuel + 1, chars, pos, acc =>
      match chars with
      | [] => .error ⟨"unterminated string".toList, startPos⟩
      | c :: rest =>
          if c = quote then .ok (.strLit acc, rest, pos + 1)
          else if c = '\\' then
            match readEscape rest (pos + 1) with
            | .error err => .error err
            | .ok (ch, rest2, pos2) =>
                readStringLoop quote startPos fuel rest2 pos2 (acc ++ [ch])
          else if c.toNat ≤ 0x1F then
            .error ⟨"unescaped control character".toList, pos + 1 - 1⟩
          else readStringLoop quote startPos fuel rest (pos + 1) (acc ++ [c])

/-- `read_string` of lexer.rs: consume the opening quote, then decode. -/
def readString : List Char → ℕ → Except LexerError (TokenKind × List Char × ℕ)
  | [], pos => .error ⟨"unexpected end of input".toList, pos⟩
  | q :: rest, pos => readStringLoop q (pos + 1) (rest.length + 1) rest (pos + 1) []

/-- Numeric value of a list of ASCII digits. -/
def natFromDigits (ds : List Char) : ℕ :=
  ds.foldl (fun a c => a * 10 + (c.toNat - 48)) 0

/-- Powers of ten (kept kernel-reducible). -/
def pow10 : ℕ → ℕ
  | 0 => 1
  | n + 1 => 10 * pow10 n

/-- The exact rational value of the numeric literal
    `-? intDigits ( . fracDigits )? ( e expSign expDigits )?`: the value
    `num_str.parse::<f64>()` computes, without the final rounding to
    `f64` (exact for every number the claims exercise). -/
def decimalValue (neg : Bool) (intDigits fracDigits : List Char)
    (expNeg : Bool) (expDigits : List Char) : ℚ :=
  let mantNum : ℕ :=
    natFromDigits intDigits * pow10 fracDigits.length + natFromDigits fracDigits
  let e : ℕ := natFromDigits expDigits
  let signedNum : ℤ := if neg then -(mantNum : ℤ) else (mantNum : ℤ)
  if expNeg then mkRat signedNum (pow10 (fracDigits.length + e))
  else mkRat (signedNum * (pow10 e : ℤ)) (pow10 fracDigits.length)

/-- The leading-minus phase of `read_number` (lexer.rs): a peek for `-`
    consumes it and records the sign. -/
def readNumberSign (chars : List Char) (pos : ℕ) : Bool × List Char × ℕ :=
  if chars.head? = some '-' then (true, chars.tail, pos + 1)
  else (false, chars, pos)

/-- The fraction phase of `read_number` (lexer.rs): a `.` followed by a
    digit consumes the dot and the digit run; otherwise nothing is
    consumed. -/
def readNumberFrac (chars2 : List Char) (pos2 : ℕ) :
    Bool × List Char × List Char × ℕ :=
  if chars2.head? = some '.' ∧ chars2.tail.head?.elim false Char.isDigit then
    match chars2.tail.span Char.isDigit with
    | (ds, rest2) => (true, ds, rest2, pos2 + 1 + ds.length)
  else (false, [], chars2, pos2)

/-- The exponent-sign peek of `read_number` (lexer.rs): `pos3` is the
    position of the `e`, so a consumed sign leaves the reader at
    `pos3 + 2` and an absent sign at `pos3 + 1`. -/
def readNumberExpSign (rest3 : List Char) (pos3 : ℕ) : Bool × List Char × ℕ :=
  if rest3.head? = some '+' then (false, rest3.tail, pos3 + 2)
  else if rest3.head? = some '-' then (true, rest3.tail, pos3 + 2)
  else (false, rest3, pos3 + 1)

/-- The exponent phase of `read_number` (lexer.rs). -/
def readNumberExp (chars3 : List Char) (pos3 : ℕ) :
    Bool × Bool × List Char × List Char × ℕ :=
  if chars3.head?.elim false (fun c => c == 'e' || c == 'E') then
    match readNumberExpSign chars3.tail pos3 with
    | (expNeg, charsE, posE) =>
      match charsE.span Char.isDigit with
      | (expDigits, charsE2) =>
          (true, expNeg, expDigits, charsE2, posE + expDigits.length)
  else (false, false, [], chars3, pos3)

/-- `read_number` of lexer.rs.  The grammar is
    `-? digits ( . digit+ )? ( [eE] [+-]? digit+ )?`, with the source's
    checks in source order: leading-zero rejection right after the integer
    part, fraction only when the dot is followed by a digit, exponent-digit
    check, the empty/lone-minus check, the `-0`-as-integer rejection, and
    finally `num_str.parse::<f64>()` — which fails exactly when the mantissa
    has no digits at all (e.g. `-e5`), the only case mapped to the
    "number out of range" error; otherwise the parsed value is modelled
    exactly as a rational. -/
def readNumber (chars : List Char) (pos : ℕ) :
    Except LexerError (TokenKind × List Char × ℕ) :=
  let startPos := pos
  match readNumberSign chars pos with
  | (neg, chars1, pos1) =>
    match chars1.span Char.isDigit with
    | (intDigits, chars2) =>
      if 1 < intDigits.length ∧ intDigits.head? = some '0' then
        .error ⟨"leading zeros not allowed".toList, startPos⟩
      else
        match readNumberFrac chars2 (pos1 + intDigits.length) with
        | (hasFrac, fracDigits, chars3, pos3) =>
          match readNumberExp chars3 pos3 with
          | (hasExp, expNeg, expDigits, chars4, pos4) =>
            if hasExp ∧ expDigits.isEmpty then
              .error ⟨"invalid exponent in number".toList, startPos⟩
            else if ¬ neg ∧ intDigits.isEmpty ∧ ¬ hasFrac ∧ ¬ hasExp then
              .error ⟨"invalid number".toList, startPos⟩
            else if neg ∧ intDigits.isEmpty ∧ ¬ hasFrac ∧ ¬ hasExp then
              .error ⟨"invalid number".toList, startPos⟩
            else if neg ∧ intDigits = ['0'] ∧ ¬ (hasFrac ∨ hasExp) then
              .error ⟨"-0 is not allowed".toList, startPos⟩
            else if intDigits.isEmpty ∧ fracDigits.isEmpty then
              .error ⟨"number out of range".toList, startPos⟩
            else
              .ok
                (.number (decimalValue neg intDigits fracDigits expNeg expDigits)
                  neg (hasFrac || hasExp), chars4, pos4)

/-- `read_ident_or_keyword` of lexer.rs. -/
def readIdentOrKeyword (chars : List Char) (pos : ℕ) :
    TokenKind × List Char × ℕ :=
  let identChars := chars.takeWhile isIdentChar
  let rest := chars.dropWhile isIdentChar
  let kind :=
    if identChars = "true".toList then TokenKind.trueKw
    else if identChars = "false".toList then TokenKind.falseKw
    else if identChars = "null".toList then TokenKind.nullKw
    else TokenKind.ident identChars
  (kind, rest, pos + identChars.length)

/-- `next_token` of lexer.rs: skip whitespace, then dispatch on the first
    character; the token's recorded position is the position reached after
    the whitespace skip. -/
def nextToken (chars : List Char) (pos : ℕ) :
    Except LexerError (Option (Token × List Char × ℕ)) :=
  match skipWhitespace chars pos with
  | ([], _) => .ok none
  | (c :: rest, startPos) =>
      if c = '$' then .ok (some (⟨.root, startPos⟩, rest, startPos + 1))
      else if c = '@' then .ok (some (⟨.at_, startPos⟩, rest, startPos + 1))
      else if c = '.' then
        if rest.head? = some '.' then
          .ok (some (⟨.dotdot, startPos⟩, rest.tail, startPos + 2))
        else .ok (some (⟨.dot, startPos⟩, rest, startPos + 1))
      else if c = '[' then .ok (some (⟨.bracketOpen, startPos⟩, rest, startPos + 1))
      else if c = ']' then .ok (some (⟨.bracketClose, startPos⟩, rest, startPos + 1))
      else if c = '(' then .ok (some (⟨.parenOpen, startPos⟩, rest, startPos + 1))
      else if c = ')' then .ok (some (⟨.parenClose, startPos⟩, rest, startPos + 1))
      else if c = '*' then .ok (some (⟨.wildcardTok, startPos⟩, rest, startPos + 1))
      else if c = ':' then .ok (some (⟨.colon, startPos⟩, rest, startPos + 1))
      else if c = ',' then .ok (some (⟨.comma, startPos⟩, rest, startPos + 1))
      else if c = '?' then .ok (some (⟨.question, startPos⟩, rest, startPos + 1))
      else if c = '<' then
        if rest.head? = some '=' then
          .ok (some (⟨.lessEq, startPos⟩, rest.tail, startPos + 2))
        else .ok (some (⟨.lessThan, startPos⟩, rest, startPos + 1))
      else if c = '>' then
        if rest.head? = some '=' then
          .ok (some (⟨.greaterEq, startPos⟩, rest.tail, startPos + 2))
        else .ok (some (⟨.greaterThan, startPos⟩, rest, startPos + 1))
      else if c = '=' then
        if rest.head? = some '=' then
          .ok (some (⟨.equal, startPos⟩, rest.tail, startPos + 2))
        else .error ⟨"expected == but found single =".toList, startPos⟩
      else if c = '!' then
        if rest.head? = some '=' then
          .ok (some (⟨.notEqual, startPos⟩, rest.tail, startPos + 2))
        else .ok (some (⟨.notOp, startPos⟩, rest, startPos + 1))
      else if c = '&' then
        if rest.head? = some '&' then
          .ok (some (⟨.andOp, startPos⟩, rest.tail, startPos + 2))
        else .error ⟨"expected && but found single &".toList, startPos⟩
      else if c = '|' then
        if rest.head? = some '|' then
          .ok (some (⟨.orOp, startPos⟩, rest.tail, startPos + 2))
        else .error ⟨"expected || but found single |".toList, startPos⟩
      else if c = squote ∨ c = '"' then
        match readString (c :: rest) startPos with
        | .error e => .error e
        | .ok (k, r, p) => .ok (some (⟨k, startPos⟩, r, p))
      else if c = '-' ∨ c.isDigit then
        match readNumber (c :: rest) startPos with
        | .error e => .error e
        | .ok (k, r, p) => .ok (some (⟨k, startPos⟩, r, p))
      else if isIdentStart c then
        match readIdentOrKeyword (c :: rest) startPos with
        | (k, r, p) => .ok (some (⟨k, startPos⟩, r, p))
      else .error ⟨"unexpected character".toList, startPos⟩

/-- The collection loop of `tokenize` (lexer.rs).  `fuel` only bounds the
    recursion; every produced token consumes at least one character, so the
    `input.length + 1` supplied by `tokenize` cannot run out. -/
def tokenizeLoop : ℕ → List Char → ℕ → List Token →
    Except LexerError (List Token)
  | 0, _, pos, _ => .error ⟨"fuel exhausted".toList, pos⟩
  | fuel + 1, chars, pos, acc =>
      match nextToken chars pos with
      | .error e => .error e
      | .ok none => .ok acc
      | .ok (some (t, rest, pos2)) => tokenizeLoop fuel rest pos2 (acc ++ [t])

/-- `Lexer::tokenize` of lexer.rs. -/
def tokenize (input : List Char) : Except LexerError (List Token) :=
  tokenizeLoop (input.length + 1) input 0 []

instance {ε α : Type} [DecidableEq ε] [DecidableEq α] :
    DecidableEq (Except ε α) := fun x y =>
  match x, y with
  | .ok a, .ok b =>
      if h : a = b then .isTrue (by rw [h])
      else .isFalse (fun hc => h (by injection hc))
  | .error a, .error b =>
      if h : a = b then .isTrue (by rw [h])
      else .isFalse (fun hc => h (by injection hc))
  | .ok _, .error _ => .isFalse (fun hc => Except.noConfusion hc)
  | .error _, .ok _ => .isFalse (fun hc => Except.noConfusion hc)

/-! ### Parser (parser.rs) -/

/-- `ParseError` of parser.rs (messages paraphrased). -/
structure ParseError where
  message : List Char
  position : ℕ
deriving DecidableEq, Repr

/-- `Parser::current_kind`. -/
def currentKind (tokens : List Token) (i : ℕ) : Option TokenKind :=
  (tokens.get? i).map (·.kind)

/-- `Parser::current_position`: the current token's position, or one past
    the last token, or 0 when there are no tokens. -/
def currentPosition (tokens : List Token) (i : ℕ) : ℕ :=
  match tokens.get? i with
  | some t => t.position
  | none =>
      match tokens.getLast? with
      | some t => t.position + 1
      | none => 0

/-- The UTF-8 byte length of a string (Rust `String::len`). -/
def utf8Len (s : List Char) : ℕ :=
  (s.map Char.utf8Size).sum

/-- Rust `n as i64` for an `f64` in the exact-rational model: truncation
    toward zero (no saturation is ever reached, the parser has already
    range-checked the value). -/
def ratAsI64 (q : ℚ) : ℤ :=
  q.num.tdiv q.den

/-- `RFC9535_MAX_INT` of parser.rs: 2^53 - 1. -/
def RFC9535_MAX_INT : ℤ := 9007199254740991

/-- `LOGICAL_TYPE_FUNCTIONS` membership (parser.rs). -/
def isLogicalTypeFunction (fname : List Char) : Bool :=
  fname = "match".toList || fname = "search".toList

/-- `COMPARISON_TYPE_FUNCTIONS` membership (parser.rs). -/
def isComparisonTypeFunction (fname : List Char) : Bool :=
  fname = "count".toList || fname = "length".toList || fname = "value".toList

/-- `Parser::keyword_to_property_name`. -/
def keywordToPropertyName : TokenKind → Option (List Char)
  | .trueKw => some "true".toList
  | .falseKw => some "false".toList
  | .nullKw => some "null".toList
  | _ => none

/-- A segment that keeps a query singular: a child segment with exactly one
    name or index selector (parser.rs `is_singular_query`, inner match). -/
def isSingularSegment : Segment → Bool
  | .child [.name _] => true
  | .child [.index _] => true
  | _ => false

/-- `Parser::is_singular_query`. -/
def isSingularQuery : JExpr → Bool
  | .path _ segs => segs.all isSingularSegment
  | .currentNode => true
  | .rootNode => true
  | .lit _ => true
  | .funcCall _ _ => true
  | _ => false

/-- `Parser::get_logical_type_function_name`. -/
def logicalTypeFunctionName : JExpr → Option (List Char)
  | .funcCall fname _ =>
      if isLogicalTypeFunction fname then some fname else none
  | _ => none

/-- `matches!(expr, Expr::Literal(_))`. -/
def isLitExpr : JExpr → Bool
  | .lit _ => true
  | _ => false

/-- `Parser::validate_logical_operand`. -/
def validateLogicalOperand (e : JExpr) (pos : ℕ) : Except ParseError Unit :=
  if isLitExpr e then
    .error ⟨"literal cannot be used as operand of logical operator".toList, pos⟩
  else .ok ()

/-- `Parser::is_nodes_type`. -/
def isNodesType : JExpr → Bool
  | .currentNode => true
  | .rootNode => true
  | .path _ _ => true
  | _ => false

/-- `Parser::is_value_type`. -/
def isValueType : JExpr → Bool
  | .lit _ => true
  | .currentNode => true
  | .rootNode => true
  | .path _ segs => segs.all isSingularSegment
  | .funcCall fname _ => isComparisonTypeFunction fname
  | _ => false

/-- `Parser::validate_function_params` (messages paraphrased). -/
def validateFunctionParams (fname : List Char) (args : List JExpr) (pos : ℕ) :
    Except ParseError Unit :=
  if fname = "count".toList then
    if args.length ≠ 1 then
      .error ⟨"function count requires exactly 1 argument".toList, pos⟩
    else if ¬ (args.all isNodesType) then
      .error ⟨"function count requires a query argument (NodesType)".toList, pos⟩
    else .ok ()
  else if fname = "length".toList then
    if args.length ≠ 1 then
      .error ⟨"function length requires exactly 1 argument".toList, pos⟩
    else if ¬ (args.all isValueType) then
      .error
        ⟨"function length requires a singular query or literal argument".toList,
          pos⟩
    else .ok ()
  else if fname = "match".toList then
    if args.length ≠ 2 then
      .error ⟨"function match requires exactly 2 arguments".toList, pos⟩
    else
      match args with
      | [a, b] =>
          if ¬ isValueType a then
            .error
              ⟨"function match first argument must be a singular query or literal".toList,
                pos⟩
          else if ¬ isValueType b then
            .error
              ⟨"function match second argument must be a singular query or literal".toList,
                pos⟩
          else .ok ()
      | _ => .ok ()
  else if fname = "search".toList then
    if args.length ≠ 2 then
      .error ⟨"function search requires exactly 2 arguments".toList, pos⟩
    else
      match args with
      | [a, b] =>
          if ¬ isValueType a then
            .error
              ⟨"function search first argument must be a singular query or literal".toList,
                pos⟩
          else if ¬ isValueType b then
            .error
              ⟨"function search second argument must be a singular query or literal".toList,
                pos⟩
          else .ok ()
      | _ => .ok ()
  else if fname = "value".toList then
    if args.length ≠ 1 then
      .error ⟨"function value requires exactly 1 argument".toList, pos⟩
    else if ¬ (args.all isNodesType) then
      .error ⟨"function value requires a query argument (NodesType)".toList, pos⟩
    else .ok ()
  else .error ⟨"unknown function".toList, pos⟩

/-- `Parser::try_parse_index_number`: reject a negative zero, then a number
    written with a fraction or exponent, then a value outside
    [-(2^53-1), 2^53-1]; otherwise the integer (`n as i64`). -/
def tryParseIndexNumber (tokens : List Token) (i : ℕ) :
    Except ParseError (Option ℤ × ℕ) :=
  match currentKind tokens i with
  | some (.number n neg fracExp) =>
      let pos := currentPosition tokens i
      if n = 0 ∧ neg then
        .error ⟨"-0 is not valid for index selector".toList, pos⟩
      else if fracExp then
        .error ⟨"index must be an integer, not a decimal".toList, pos⟩
      else if n < -RFC9535_MAX_INT ∨ RFC9535_MAX_INT < n then
        .error ⟨"index out of range".toList, pos⟩
      else .ok (some (ratAsI64 n), i + 1)
  | _ => .ok (none, i)

/-- `Parser::parse_index_or_slice`. -/
def parseIndexOrSlice (tokens : List Token) (i : ℕ) :
    Except ParseError (Selector × ℕ) := do
  let (start, i) ← tryParseIndexNumber tokens i
  if currentKind tokens i ≠ some .colon then
    match start with
    | some n => .ok (.index n, i)
    | none => .error ⟨"expected number".toList, currentPosition tokens i⟩
  else do
    let (stop, i2) ← tryParseIndexNumber tokens (i + 1)
    if currentKind tokens i2 = some .colon then do
      let (step, i3) ← tryParseIndexNumber tokens (i2 + 1)
      .ok (.slice start stop step, i3)
    else .ok (.slice start stop none, i2)

/-- Comparison operator of a token kind, if any (parser.rs
    `parse_comparison_expression`, operator match). -/
def compOpOfKind : Option TokenKind → Option CompOp
  | some .equal => some .eq
  | some .notEqual => some .ne
  | some .lessThan => some .lt
  | some .greaterThan => some .gt
  | some .lessEq => some .le
  | some .greaterEq => some .ge
  | _ => none

mutual

/-- The segment loop of `Parser::parse_jsonpath`: parse segments until the
    tokens are exhausted.  Every parser function takes fuel; the fuel
    supplied by `parseJsonpathTokens` exceeds any possible recursion depth,
    so the out-of-fuel error is unreachable from the public entry point. -/
def parseSegments (tokens : List Token) :
    ℕ → ℕ → List Segment → Except ParseError (List Segment × ℕ)
  | 0, i, _ => .error ⟨"fuel exhausted".toList, i⟩
  | fuel + 1, i, acc =>
      match currentKind tokens i with
      | none => .ok (acc, i)
      | some _ => do
          let (seg, i2) ← parseSegment tokens fuel i
          parseSegments tokens fuel i2 (acc ++ [seg])
termination_by structural fuel _ _ => fuel

/-- `Parser::parse_segment`. -/
def parseSegment (tokens : List Token) :
    ℕ → ℕ → Except ParseError (Segment × ℕ)
  | 0, i => .error ⟨"fuel exhausted".toList, i⟩
  | fuel + 1, i =>
      match currentKind tokens i with
      | some .dotdot =>
          let dotPos := currentPosition tokens i
          if currentPosition tokens (i + 1) ≠ dotPos + 2 then
            .error ⟨"whitespace not allowed after ..".toList, dotPos + 2⟩
          else do
            let (sels, i2) ← parseSelectorsAfterDot tokens fuel (i + 1)
            .ok (.descendant sels, i2)
      | some .dot =>
          let dotPos := currentPosition tokens i
          if currentPosition tokens (i + 1) ≠ dotPos + 1 then
            .error ⟨"whitespace not allowed after .".toList, dotPos + 1⟩
          else do
            let (sels, i2) ← parseSelectorsAfterDot tokens fuel (i + 1)
            .ok (.child sels, i2)
      | some .bracketOpen => do
          let (sels, i2) ← parseBracketSelectors tokens fuel i
          .ok (.child sels, i2)
      | some _ =>
          .error ⟨"unexpected token".toList, currentPosition tokens i⟩
      | none =>
          .error ⟨"unexpected end of input".toList, currentPosition tokens i⟩

/-- `Parser::parse_selectors_after_dot`. -/
def parseSelectorsAfterDot (tokens : List Token) :
    ℕ → ℕ → Except ParseError (List Selector × ℕ)
  | 0, i => .error ⟨"fuel exhausted".toList, i⟩
  | fuel + 1, i =>
      match (currentKind tokens i).bind keywordToPropertyName with
      | some pname => .ok ([.name pname], i + 1)
      | none =>
          match currentKind tokens i with
          | some (.ident nm) => .ok ([.name nm], i + 1)
          | some .wildcardTok => .ok ([.wildcard], i + 1)
          | some .bracketOpen => parseBracketSelectors tokens fuel i
          | some _ =>
              .error ⟨"expected identifier or wildcard after dot".toList,
                currentPosition tokens i⟩
          | none =>
              .error ⟨"expected identifier or wildcard after dot".toList,
                currentPosition tokens i⟩

/-- `Parser::parse_bracket_selectors`: consume the `[`, then the selector
    list. -/
def parseBracketSelectors (tokens : List Token) :
    ℕ → ℕ → Except ParseError (List Selector × ℕ)
  | 0, i => .error ⟨"fuel exhausted".toList, i⟩
  | fuel + 1, i =>
      if currentKind tokens i ≠ some .bracketOpen then
        .error ⟨"expected open bracket".toList, currentPosition tokens i⟩
      else parseBracketLoop tokens fuel (i + 1) []

/-- The selector-list loop of `parse_bracket_selectors`. -/
def parseBracketLoop (tokens : List Token) :
    ℕ → ℕ → List Selector → Except ParseError (List Selector × ℕ)
  | 0, i, _ => .error ⟨"fuel exhausted".toList, i⟩
  | fuel + 1, i, acc => do
      let (sel, i2) ← parseSelector tokens fuel i
      match currentKind tokens i2 with
      | some .comma => parseBracketLoop tokens fuel (i2 + 1) (acc ++ [sel])
      | some .bracketClose => .ok (acc ++ [sel], i2 + 1)
      | some _ =>
          .error ⟨"expected comma or close bracket".toList,
            currentPosition tokens i2⟩
      | none =>
          .error ⟨"unclosed bracket".toList, currentPosition tokens i2⟩
termination_by structural fuel _ _ => fuel

/-- `Parser::parse_selector`. -/
def parseSelector (tokens : List Token) :
    ℕ → ℕ → Except ParseError (Selector × ℕ)
  | 0, i => .error ⟨"fuel exhausted".toList, i⟩
  | fuel + 1, i =>
      match currentKind tokens i with
      | some .wildcardTok => .ok (.wildcard, i + 1)
      | some (.strLit s) => .ok (.name s, i + 1)
      | some (.number _ _ _) => parseIndexOrSlice tokens i
      | some .colon => parseIndexOrSlice tokens i
      | some .question => do
          let (e, i2) ← parseExpression tokens fuel (i + 1)
          if isLitExpr e then
            .error ⟨"filter expression cannot be a literal alone".toList,
              currentPosition tokens i2⟩
          else
            match e with
            | .funcCall fname _ =>
                if isComparisonTypeFunction fname then
                  .error
                    ⟨"function returns a value that must be compared".toList,
                      currentPosition tokens i2⟩
                else .ok (.filter e, i2)
            | _ => .ok (.filter e, i2)
      | some _ =>
          .error ⟨"unexpected token in selector".toList,
            currentPosition tokens i⟩
      | none =>
          .error ⟨"unexpected end of input in selector".toList,
            currentPosition tokens i⟩

/-- `Parser::parse_expression`. -/
def parseExpression (tokens : List Token) :
    ℕ → ℕ → Except ParseError (JExpr × ℕ)
  | 0, i => .error ⟨"fuel exhausted".toList, i⟩
  | fuel + 1, i => parseOrExpression tokens fuel i
termination_by structural fuel _ => fuel

/-- `Parser::parse_or_expression`. -/
def parseOrExpression (tokens : List Token) :
    ℕ → ℕ → Except ParseError (JExpr × ℕ)
  | 0, i => .error ⟨"fuel exhausted".toList, i⟩
  | fuel + 1, i => do
      let (left, i2) ← parseAndExpression tokens fuel i
      parseOrLoop tokens fuel left i2
termination_by structural fuel _ => fuel

/-- The `||` loop of `parse_or_expression`. -/
def parseOrLoop (tokens : List Token) :
    ℕ → JExpr → ℕ → Except ParseError (JExpr × ℕ)
  | 0, _, i => .error ⟨"fuel exhausted".toList, i⟩
  | fuel + 1, left, i =>
      if currentKind tokens i = some .orOp then do
        let opPos := currentPosition tokens i
        let (right, i2) ← parseAndExpression tokens fuel (i + 1)
        let _ ← validateLogicalOperand left opPos
        let _ ← validateLogicalOperand right opPos
        parseOrLoop tokens fuel (.logical left .or right) i2
      else .ok (left, i)
termination_by structural fuel _ _ => fuel

/-- `Parser::parse_and_expression`. -/
def parseAndExpression (tokens : List Token) :
    ℕ → ℕ → Except ParseError (JExpr × ℕ)
  | 0, i => .error ⟨"fuel exhausted".toList, i⟩
  | fuel + 1, i => do
      let (left, i2) ← parseComparisonExpression tokens fuel i
      parseAndLoop tokens fuel left i2
termination_by structural fuel _ => fuel

/-- The `&&` loop of `parse_and_expression`. -/
def parseAndLoop (tokens : List Token) :
    ℕ → JExpr → ℕ → Except ParseError (JExpr × ℕ)
  | 0, _, i => .error ⟨"fuel exhausted".toList, i⟩
  | fuel + 1, left, i =>
      if currentKind tokens i = some .andOp then do
        let opPos := currentPosition tokens i
        let (right, i2) ← parseComparisonExpression tokens fuel (i + 1)
        let _ ← validateLogicalOperand left opPos
        let _ ← validateLogicalOperand right opPos
        parseAndLoop tokens fuel (.logical left .and right) i2
      else .ok (left, i)
termination_by structural fuel _ _ => fuel

/-- `Parser::parse_comparison_expression`. -/
def parseComparisonExpression (tokens : List Token) :
    ℕ → ℕ → Except ParseError (JExpr × ℕ)
  | 0, i => .error ⟨"fuel exhausted".toList, i⟩
  | fuel + 1, i => do
      let (left, i2) ← parseUnaryExpression tokens fuel i
      match compOpOfKind (currentKind tokens i2) with
      | some op => do
          let opPos := currentPosition tokens i2
          let (right, i3) ← parseUnaryExpression tokens fuel (i2 + 1)
          if ¬ isSingularQuery left then
            .error ⟨"non-singular query not allowed in comparison".toList, opPos⟩
          else if ¬ isSingularQuery right then
            .error ⟨"non-singular query not allowed in comparison".toList, opPos⟩
          else
            match logicalTypeFunctionName left with
            | some _ =>
                .error
                  ⟨"function returns LogicalType and cannot be compared".toList,
                    opPos⟩
            | none =>
                match logicalTypeFunctionName right with
                | some _ =>
                    .error
                      ⟨"function returns LogicalType and cannot be compared".toList,
                        opPos⟩
                | none => .ok (.comparison left op right, i3)
      | none => .ok (left, i2)
termination_by structural fuel _ => fuel

/-- `Parser::parse_unary_expression`. -/
def parseUnaryExpression (tokens : List Token) :
    ℕ → ℕ → Except ParseError (JExpr × ℕ)
  | 0, i => .error ⟨"fuel exhausted".toList, i⟩
  | fuel + 1, i =>
      if currentKind tokens i = some .notOp then do
        let (e, i2) ← parseUnaryExpression tokens fuel (i + 1)
        .ok (.not e, i2)
      else parseAtom tokens fuel i
termination_by structural fuel _ => fuel

/-- `Parser::parse_atom`. -/
def parseAtom (tokens : List Token) :
    ℕ → ℕ → Except ParseError (JExpr × ℕ)
  | 0, i => .error ⟨"fuel exhausted".toList, i⟩
  | fuel + 1, i =>
      match currentKind tokens i with
      | some .at_ => parsePathOrNode tokens fuel .currentNode (i + 1)
      | some .root => parsePathOrNode tokens fuel .rootNode (i + 1)
      | some .trueKw => .ok (.lit (.bool true), i + 1)
      | some .falseKw => .ok (.lit (.bool false), i + 1)
      | some .nullKw => .ok (.lit .null, i + 1)
      | some (.number n _ _) => .ok (.lit (.num n), i + 1)
      | some (.strLit s) => .ok (.lit (.str s), i + 1)
      | some (.ident nm) =>
          let identPos := currentPosition tokens i
          if currentKind tokens (i + 1) = some .parenOpen then
            if currentPosition tokens (i + 1) ≠ identPos + utf8Len nm then
              .error
                ⟨"whitespace not allowed between function name and open paren".toList,
                  identPos + utf8Len nm⟩
            else parseFunctionCall tokens fuel nm (i + 1)
          else
            .error ⟨"unexpected identifier in expression".toList,
              currentPosition tokens (i + 1)⟩
      | some .parenOpen => do
          let (e, i2) ← parseExpression tokens fuel (i + 1)
          if currentKind tokens i2 = some .parenClose then .ok (e, i2 + 1)
          else
            .error ⟨"expected close paren after expression".toList,
              currentPosition tokens i2⟩
      | some _ =>
          .error ⟨"unexpected token in expression".toList,
            currentPosition tokens i⟩
      | none =>
          .error ⟨"unexpected end of input in expression".toList,
            currentPosition tokens i⟩
termination_by structural fuel _ => fuel

/-- `Parser::parse_path_or_node`: a bare `@`/`$`, or a `Path` once at least
    one segment follows. -/
def parsePathOrNode (tokens : List Token) :
    ℕ → JExpr → ℕ → Except ParseError (JExpr × ℕ)
  | 0, _, i => .error ⟨"fuel exhausted".toList, i⟩
  | fuel + 1, start, i =>
      match currentKind tokens i with
      | some .dot => do
          let (segs, i2) ← parsePathSegLoop tokens fuel [] i
          .ok (.path start segs, i2)
      | some .dotdot => do
          let (segs, i2) ← parsePathSegLoop tokens fuel [] i
          .ok (.path start segs, i2)
      | some .bracketOpen => do
          let (segs, i2) ← parsePathSegLoop tokens fuel [] i
          .ok (.path start segs, i2)
      | _ => .ok (start, i)
termination_by structural fuel _ _ => fuel

/-- The segment loop of `parse_path_or_node`. -/
def parsePathSegLoop (tokens : List Token) :
    ℕ → List Segment → ℕ → Except ParseError (List Segment × ℕ)
  | 0, _, i => .error ⟨"fuel exhausted".toList, i⟩
  | fuel + 1, acc, i =>
      match currentKind tokens i with
      | some .dot => do
          let (seg, i2) ← parseFilterPathSegment tokens fuel i
          parsePathSegLoop tokens fuel (acc ++ [seg]) i2
      | some .dotdot => do
          let (seg, i2) ← parseFilterPathSegment tokens fuel i
          parsePathSegLoop tokens fuel (acc ++ [seg]) i2
      | some .bracketOpen => do
          let (seg, i2) ← parseFilterPathSegment tokens fuel i
          parsePathSegLoop tokens fuel (acc ++ [seg]) i2
      | _ => .ok (acc, i)
termination_by structural fuel _ _ => fuel

/-- `Parser::parse_filter_path_segment`. -/
def parseFilterPathSegment (tokens : List Token) :
    ℕ → ℕ → Except ParseError (Segment × ℕ)
  | 0, i => .error ⟨"fuel exhausted".toList, i⟩
  | fuel + 1, i =>
      match currentKind tokens i with
      | some .dotdot =>
          let dotPos := currentPosition tokens i
          if currentPosition tokens (i + 1) ≠ dotPos + 2 then
            .error ⟨"whitespace not allowed after ..".toList, dotPos + 2⟩
          else do
            let (sels, i2) ← parseFilterSelectorsAfterDot tokens fuel (i + 1)
            .ok (.descendant sels, i2)
      | some .dot =>
          let dotPos := currentPosition tokens i
          if currentPosition tokens (i + 1) ≠ dotPos + 1 then
            .error ⟨"whitespace not allowed after .".toList, dotPos + 1⟩
          else do
            let (sels, i2) ← parseFilterSelectorsAfterDot tokens fuel (i + 1)
            .ok (.child sels, i2)
      | some .bracketOpen => do
          let (sels, i2) ← parseFilterBracketLoop tokens fuel (i + 1) []
          .ok (.child sels, i2)
      | _ =>
          .error ⟨"expected path segment".toList, currentPosition tokens i⟩
termination_by structural fuel _ => fuel

/-- `Parser::parse_filter_selectors_after_dot`. -/
def parseFilterSelectorsAfterDot (tokens : List Token) :
    ℕ → ℕ → Except ParseError (List Selector × ℕ)
  | 0, i => .error ⟨"fuel exhausted".toList, i⟩
  | fuel + 1, i =>
      match (currentKind tokens i).bind keywordToPropertyName with
      | some pname => .ok ([.name pname], i + 1)
      | none =>
          match currentKind tokens i with
          | some (.ident nm) => .ok ([.name nm], i + 1)
          | some .wildcardTok => .ok ([.wildcard], i + 1)
          | some .bracketOpen => parseFilterBracketLoop tokens fuel (i + 1) []
          | some _ =>
              .error ⟨"expected identifier or wildcard after dot".toList,
                currentPosition tokens i⟩
          | none =>
              .error ⟨"expected identifier or wildcard after dot".toList,
                currentPosition tokens i⟩
termination_by structural fuel _ => fuel

/-- The bracket-selector loop used inside filter paths; unlike the top-level
    loop, the end of input reports "expected comma or close bracket". -/
def parseFilterBracketLoop (tokens : List Token) :
    ℕ → ℕ → List Selector → Except ParseError (List Selector × ℕ)
  | 0, i, _ => .error ⟨"fuel exhausted".toList, i⟩
  | fuel + 1, i, acc => do
      let (sel, i2) ← parseFilterBracketSelector tokens fuel i
      match currentKind tokens i2 with
      | some .comma => parseFilterBracketLoop tokens fuel (i2 + 1) (acc ++ [sel])
      | some .bracketClose => .ok (acc ++ [sel], i2 + 1)
      | _ =>
          .error ⟨"expected comma or close bracket".toList,
            currentPosition tokens i2⟩
termination_by structural fuel _ _ => fuel

/-- `Parser::parse_filter_bracket_selector`: like `parse_selector` but a
    nested filter is only checked against the bare-literal rule. -/
def parseFilterBracketSelector (tokens : List Token) :
    ℕ → ℕ → Except ParseError (Selector × ℕ)
  | 0, i => .error ⟨"fuel exhausted".toList, i⟩
  | fuel + 1, i =>
      match currentKind tokens i with
      | some .wildcardTok => .ok (.wildcard, i + 1)
      | some (.strLit s) => .ok (.name s, i + 1)
      | some (.number _ _ _) => parseIndexOrSlice tokens i
      | some .colon => parseIndexOrSlice tokens i
      | some .question => do
          let (e, i2) ← parseExpression tokens fuel (i + 1)
          if isLitExpr e then
            .error ⟨"filter expression cannot be a literal alone".toList,
              currentPosition tokens i2⟩
          else .ok (.filter e, i2)
      | some _ =>
          .error ⟨"unexpected token in bracket selector".toList,
            currentPosition tokens i⟩
      | none =>
          .error ⟨"unexpected end of input in bracket selector".toList,
            currentPosition tokens i⟩
termination_by structural fuel _ => fuel

/-- `Parser::parse_function_call`: the args list, the close paren, then the
    static parameter validation. -/
def parseFunctionCall (tokens : List Token) :
    ℕ → List Char → ℕ → Except ParseError (JExpr × ℕ)
  | 0, _, i => .error ⟨"fuel exhausted".toList, i⟩
  | fuel + 1, fname, i =>
      let funcPos := currentPosition tokens i
      if currentKind tokens i ≠ some .parenOpen then
        .error ⟨"expected open paren after function name".toList,
          currentPosition tokens i⟩
      else
        if currentKind tokens (i + 1) = some .parenClose then do
          let _ ← validateFunctionParams fname [] funcPos
          .ok (.funcCall fname [], i + 2)
        else do
          let (a, i2) ← parseExpression tokens fuel (i + 1)
          let (args, i3) ← parseArgsLoop tokens fuel [a] i2
          if currentKind tokens i3 ≠ some .parenClose then
            .error ⟨"expected close paren after function arguments".toList,
              currentPosition tokens i3⟩
          else do
            let _ ← validateFunctionParams fname args funcPos
            .ok (.funcCall fname args, i3 + 1)
termination_by structural fuel _ _ => fuel

/-- The comma-separated argument loop of `parse_function_call`. -/
def parseArgsLoop (tokens : List Token) :
    ℕ → List JExpr → ℕ → Except ParseError (List JExpr × ℕ)
  | 0, _, i => .error ⟨"fuel exhausted".toList, i⟩
  | fuel + 1, acc, i =>
      if currentKind tokens i = some .comma then do
        let (a, i2) ← parseExpression tokens fuel (i + 1)
        parseArgsLoop tokens fuel (acc ++ [a]) i2
      else .ok (acc, i)
termination_by structural fuel _ _ => fuel
end

/-- `Parser::parse_jsonpath`: require the leading `$`, then the segments. -/
def parseJsonpathTokens (tokens : List Token) : Except ParseError JsonPath :=
  if currentKind tokens 0 ≠ some .root then
    .error ⟨"JSONPath must start with the root identifier".toList, 0⟩
  else do
    let (segs, _) ← parseSegments tokens ((tokens.length + 2) * 8) 1 []
    .ok ⟨segs⟩

/-- `Parser::parse` (parser.rs): the leading/trailing-whitespace checks (the
    trailing check reports byte length - 1), tokenization (a `LexerError`
    surfaces as a `ParseError` with the same message and position), and the
    token-level parse. -/
def parserParse (input : List Char) : Except ParseError JsonPath :=
  match input.head? with
  | some c =>
      if rustIsWhitespace c then
        .error ⟨"leading whitespace is not allowed".toList, 0⟩
      else
        match input.getLast? with
        | some d =>
            if rustIsWhitespace d then
              .error ⟨"trailing whitespace is not allowed".toList, utf8Len input - 1⟩
            else
              match tokenize input with
              | .error e => .error ⟨e.message, e.position⟩
              | .ok tokens => parseJsonpathTokens tokens
        | none =>
            match tokenize input with
            | .error e => .error ⟨e.message, e.position⟩
            | .ok tokens => parseJsonpathTokens tokens
  | none =>
      match tokenize input with
      | .error e => .error ⟨e.message, e.position⟩
      | .ok tokens => parseJsonpathTokens tokens

/-! ### Position bookkeeping of the lexer (for C8) -/

theorem skipWhitespace_sync (chars : List Char) (pos : ℕ) :
    (skipWhitespace chars pos).2 + (skipWhitespace chars pos).1.length =
      pos + chars.length := by
  induction chars generalizing pos with
  | nil => simp [skipWhitespace]
  | cons c rest ih =>
      by_cases h : rustIsWhitespace c
      · simp [skipWhitespace, h, ih]; omega
      · simp [skipWhitespace, h]

theorem readHexDigits_sync :
    ∀ (n acc : ℕ) (chars : List Char) (pos : ℕ) (code : ℕ)
      (rest : List Char) (pos2 : ℕ),
      readHexDigits n acc chars pos = .ok (code, rest, pos2) →
      pos2 + rest.length = pos + chars.length := by
  intro n
  induction n with
  | zero =>
      intro acc chars pos code rest pos2 h
      simp [readHexDigits] at h
      obtain ⟨-, rfl, rfl⟩ := h
      rfl
  | succ n ih =>
      intro acc chars pos code rest pos2 h
      match chars with
      | [] => simp [readHexDigits] at h
      | c :: rest0 =>
          simp only [readHexDigits] at h
          match hv : hexDigitVal c with
          | some v =>
              rw [hv] at h
              have := ih (acc * 16 + v) rest0 (pos + 1) code rest pos2 h
              simp; omega
          | none => rw [hv] at h; simp at h

theorem readUnicodeScalar_sync (chars : List Char) (pos : ℕ) (ch : Char)
    (rest : List Char) (pos2 : ℕ)
    (h : readUnicodeScalar chars pos = .ok (ch, rest, pos2)) :
    pos2 + rest.length = pos + chars.length := by
  simp only [readUnicodeScalar] at h
  match hx : readHexDigits 4 0 chars pos with
  | .error err => rw [hx] at h; simp at h
  | .ok (code, rest3, pos3) =>
      rw [hx] at h
      dsimp only at h
      have hs1 := readHexDigits_sync 4 0 chars pos code rest3 pos3 hx
      by_cases hsur : 0xD800 ≤ code ∧ code ≤ 0xDBFF
      · rw [if_pos hsur] at h
        match rest3, hs1 with
        | [], hs1 => simp at h
        | c1 :: rest4, hs1 =>
            dsimp only at h
            by_cases hc1 : c1 ≠ '\\'
            · rw [if_pos hc1] at h; simp at h
            · rw [if_neg hc1] at h
              match rest4, hs1 with
              | [], hs1 => simp at h
              | c2 :: rest5, hs1 =>
                  dsimp only at h
                  by_cases hc2 : c2 ≠ 'u'
                  · rw [if_pos hc2] at h; simp at h
                  · rw [if_neg hc2] at h
                    match hx2 : readHexDigits 4 0 rest5 (pos3 + 2) with
                    | .error err => rw [hx2] at h; simp at h
                    | .ok (low, rest6, pos6) =>
                        rw [hx2] at h
                        dsimp only at h
                        have hs2 := readHexDigits_sync 4 0 rest5 (pos3 + 2)
                          low rest6 pos6 hx2
                        by_cases hlow : 0xDC00 ≤ low ∧ low ≤ 0xDFFF
                        · rw [if_pos hlow] at h
                          cases hcf : charFromU32
                              (0x10000 + (code - 0xD800) * 1024 +
                                (low - 0xDC00)) with
                          | none => rw [hcf] at h; simp at h
                          | some c3 =>
                              rw [hcf] at h
                              simp at h
                              obtain ⟨-, rfl, rfl⟩ := h
                              simp at hs1
                              omega
                        · rw [if_neg hlow] at h; simp at h
      · rw [if_neg hsur] at h
        cases hcf : charFromU32 code with
        | none => rw [hcf] at h; simp at h
        | some c3 =>
            rw [hcf] at h
            simp at h
            obtain ⟨-, rfl, rfl⟩ := h
            omega

theorem readEscape_sync (chars : List Char) (pos : ℕ) (ch : Char)
    (rest : List Char) (pos2 : ℕ)
    (h : readEscape chars pos = .ok (ch, rest, pos2)) :
    pos2 + rest.length = pos + chars.length := by
  match chars with
  | [] => simp [readEscape] at h
  | e :: rest0 =>
      simp only [readEscape] at h
      by_cases e1 : e = 'n'
      · simp [e1] at h; obtain ⟨-, rfl, rfl⟩ := h; simp; omega
      · rw [if_neg e1] at h
        by_cases e2 : e = 't'
        · simp [e2] at h; obtain ⟨-, rfl, rfl⟩ := h; simp; omega
        · rw [if_neg e2] at h
          by_cases e3 : e = 'r'
          · simp [e3] at h; obtain ⟨-, rfl, rfl⟩ := h; simp; omega
          · rw [if_neg e3] at h
            by_cases e4 : e = '\\' ∨ e = squote ∨ e = '"' ∨ e = '/'
            · rw [if_pos e4] at h
              simp at h; obtain ⟨-, rfl, rfl⟩ := h; simp; omega
            · rw [if_neg e4] at h
              by_cases e5 : e = 'b'
              · simp [e5] at h; obtain ⟨-, rfl, rfl⟩ := h; simp; omega
              · rw [if_neg e5] at h
                by_cases e6 : e = 'f'
                · simp [e6] at h; obtain ⟨-, rfl, rfl⟩ := h; simp; omega
                · rw [if_neg e6] at h
                  by_cases e7 : e = 'u'
                  · rw [if_pos e7] at h
                    have := readUnicodeScalar_sync rest0 (pos + 1) ch rest pos2 h
                    simp; omega
                  · rw [if_neg e7] at h; simp at h

theorem readStringLoop_sync :
    ∀ (fuel : ℕ) (quote : Char) (startPos : ℕ) (chars : List Char) (pos : ℕ)
      (acc : List Char) (k : TokenKind) (rest : List Char) (pos2 : ℕ),
      readStringLoop quote startPos fuel chars pos acc = .ok (k, rest, pos2) →
      pos2 + rest.length = pos + chars.length := by
  intro fuel
  induction fuel with
  | zero =>
      intro q sp chars pos acc k rest pos2 h
      simp [readStringLoop] at h
  | succ fuel ih =>
      intro q sp chars pos acc k rest pos2 h
      match chars with
      | [] => simp [readStringLoop] at h
      | c :: rest0 =>
          simp only [readStringLoop] at h
          by_cases h1 : c = q
          · rw [if_pos h1] at h
            simp at h
            obtain ⟨-, rfl, rfl⟩ := h
            simp; omega
          · rw [if_neg h1] at h
            by_cases h2 : c = '\\'
            · rw [if_pos h2] at h
              match he : readEscape rest0 (pos + 1) with
              | .error err => rw [he] at h; simp at h
              | .ok (ch, rest2, pos3) =>
                  rw [he] at h
                  dsimp only at h
                  have hs := readEscape_sync rest0 (pos + 1) ch rest2 pos3 he
                  have := ih q sp rest2 pos3 (acc ++ [ch]) k rest pos2 h
                  simp; omega
            · rw [if_neg h2] at h
              by_cases h3 : c.toNat ≤ 0x1F
              · rw [if_pos h3] at h; simp at h
              · rw [if_neg h3] at h
                have := ih q sp rest0 (pos + 1) (acc ++ [c]) k rest pos2 h
                simp; omega

theorem readString_sync (chars : List Char) (pos : ℕ) (k : TokenKind)
    (rest : List Char) (pos2 : ℕ)
    (h : readString chars pos = .ok (k, rest, pos2)) :
    pos2 + rest.length = pos + chars.length := by
  match chars with
  | [] => simp [readString] at h
  | q :: rest0 =>
      simp only [readString] at h
      have := readStringLoop_sync (rest0.length + 1) q (pos + 1) rest0 (pos + 1)
        [] k rest pos2 h
      simp; omega
theorem span_loop_eq (p : Char → Bool) :
    ∀ (l acc : List Char),
      List.span.loop p l acc = (acc.reverse ++ l.takeWhile p, l.dropWhile p) := by
  intro l
  induction l with
  | nil => intro acc; simp [List.span.loop]
  | cons a as ih =>
      intro acc
      by_cases h : p a
      · simp [List.span.loop, h, ih]
      · simp [List.span.loop, h]

theorem span_eq (p : Char → Bool) (l : List Char) :
    l.span p = (l.takeWhile p, l.dropWhile p) := by
  simp [List.span, span_loop_eq]

theorem takeWhile_dropWhile_length (p : Char → Bool) (l : List Char) :
    (l.takeWhile p).length + (l.dropWhile p).length = l.length := by
  conv_rhs => rw [← List.takeWhile_append_dropWhile (p := p) (l := l)]
  exact (List.length_append _ _).symm

theorem span_len {p : Char → Bool} {l a b : List Char}
    (h : l.span p = (a, b)) : a.length + b.length = l.length := by
  rw [span_eq] at h
  injection h with h1 h2
  subst h1; subst h2
  exact takeWhile_dropWhile_length p l

theorem readNumberSign_sync (chars : List Char) (pos : ℕ) :
    (readNumberSign chars pos).2.2 + (readNumberSign chars pos).2.1.length =
      pos + chars.length := by
  unfold readNumberSign
  by_cases h : chars.head? = some '-'
  · rw [if_pos h]
    cases chars with
    | nil => simp at h
    | cons c cs => simp; omega
  · rw [if_neg h]

theorem readNumberFrac_sync (chars2 : List Char) (pos2 : ℕ) :
    (readNumberFrac chars2 pos2).2.2.2 +
        (readNumberFrac chars2 pos2).2.2.1.length =
      pos2 + chars2.length := by
  unfold readNumberFrac
  by_cases h : chars2.head? = some '.' ∧ chars2.tail.head?.elim false Char.isDigit
  · rw [if_pos h]
    rcases hsp : chars2.tail.span Char.isDigit with ⟨ds, rest2⟩
    dsimp only
    have hl := span_len hsp
    cases chars2 with
    | nil => simp at h
    | cons c cs => simp at hl ⊢; omega
  · rw [if_neg h]

theorem readNumberExpSign_sync (rest3 : List Char) (pos3 : ℕ) :
    (readNumberExpSign rest3 pos3).2.2 +
        (readNumberExpSign rest3 pos3).2.1.length =
      pos3 + 1 + rest3.length := by
  unfold readNumberExpSign
  by_cases h1 : rest3.head? = some '+'
  · rw [if_pos h1]
    cases rest3 with
    | nil => simp at h1
    | cons c cs => simp; omega
  · rw [if_neg h1]
    by_cases h2 : rest3.head? = some '-'
    · rw [if_pos h2]
      cases rest3 with
      | nil => simp at h2
      | cons c cs => simp; omega
    · rw [if_neg h2]

theorem readNumberExp_sync (chars3 : List Char) (pos3 : ℕ) :
    (readNumberExp chars3 pos3).2.2.2.2 +
        (readNumberExp chars3 pos3).2.2.2.1.length =
      pos3 + chars3.length := by
  unfold readNumberExp
  by_cases h : chars3.head?.elim false (fun c => c == 'e' || c == 'E') = true
  · rw [if_pos h]
    have hsign := readNumberExpSign_sync chars3.tail pos3
    rcases hE : readNumberExpSign chars3.tail pos3 with ⟨expNeg, charsE, posE⟩
    rw [hE] at hsign
    dsimp only at hsign ⊢
    rcases hsp : charsE.span Char.isDigit with ⟨expDigits, charsE2⟩
    dsimp only
    have hl := span_len hsp
    cases chars3 with
    | nil => simp at h
    | cons c cs => simp at hsign ⊢; omega
  · rw [if_neg h]

theorem readNumber_sync (chars : List Char) (pos : ℕ) (k : TokenKind)
    (rest : List Char) (pos2 : ℕ)
    (h : readNumber chars pos = .ok (k, rest, pos2)) :
    pos2 + rest.length = pos + chars.length := by
  have hsign := readNumberSign_sync chars pos
  simp only [readNumber] at h
  rcases hS : readNumberSign chars pos with ⟨neg, chars1, pos1⟩
  rw [hS] at h hsign
  dsimp only at h hsign
  rcases hsp : chars1.span Char.isDigit with ⟨intDigits, chars2⟩
  rw [hsp] at h
  have hsplen := span_len hsp
  dsimp only at h
  by_cases hlz : 1 < intDigits.length ∧ intDigits.head? = some '0'
  · rw [if_pos hlz] at h; exact Except.noConfusion h
  rw [if_neg hlz] at h
  have hfrac := readNumberFrac_sync chars2 (pos1 + intDigits.length)
  rcases hF : readNumberFrac chars2 (pos1 + intDigits.length) with
    ⟨hasFrac, fracDigits, chars3, pos3⟩
  rw [hF] at h hfrac
  dsimp only at h hfrac
  have hexp := readNumberExp_sync chars3 pos3
  rcases hE : readNumberExp chars3 pos3 with
    ⟨hasExp, expNeg, expDigits, chars4, pos4⟩
  rw [hE] at h hexp
  dsimp only at h hexp
  by_cases h1 : hasExp = true ∧ expDigits.isEmpty = true
  · rw [if_pos h1] at h; exact Except.noConfusion h
  rw [if_neg h1] at h
  by_cases h2 : ¬ neg = true ∧ intDigits.isEmpty = true ∧
      ¬ hasFrac = true ∧ ¬ hasExp = true
  · rw [if_pos h2] at h; exact Except.noConfusion h
  rw [if_neg h2] at h
  by_cases h3 : neg = true ∧ intDigits.isEmpty = true ∧
      ¬ hasFrac = true ∧ ¬ hasExp = true
  · rw [if_pos h3] at h; exact Except.noConfusion h
  rw [if_neg h3] at h
  by_cases h4 : neg = true ∧ intDigits = ['0'] ∧ ¬ (hasFrac = true ∨ hasExp = true)
  · rw [if_pos h4] at h; exact Except.noConfusion h
  rw [if_neg h4] at h
  by_cases h5 : intDigits.isEmpty = true ∧ fracDigits.isEmpty = true
  · rw [if_pos h5] at h; exact Except.noConfusion h
  rw [if_neg h5] at h
  rw [Except.ok.injEq, Prod.mk.injEq, Prod.mk.injEq] at h
  obtain ⟨-, hr, hp⟩ := h
  subst hr; subst hp
  omega

theorem readIdentOrKeyword_sync (chars : List Char) (pos : ℕ) :
    (readIdentOrKeyword chars pos).2.2 +
        (readIdentOrKeyword chars pos).2.1.length =
      pos + chars.length := by
  unfold readIdentOrKeyword
  have := takeWhile_dropWhile_length isIdentChar chars
  dsimp only
  omega

theorem nextToken_sync (chars : List Char) (pos : ℕ) (t : Token)
    (rest : List Char) (pos2 : ℕ)
    (h : nextToken chars pos = .ok (some (t, rest, pos2))) :
    pos2 + rest.length = pos + chars.length := by
  have hws := skipWhitespace_sync chars pos
  simp only [nextToken] at h
  rcases hW : skipWhitespace chars pos with ⟨cs, startPos⟩
  rw [hW] at h hws
  dsimp only at hws
  cases cs with
  | nil =>
      dsimp only at h
      exact Option.noConfusion (Except.ok.inj h)
  | cons c rest0 =>
      dsimp only at h
      rw [List.length_cons] at hws
      by_cases hc1 : c = '$'
      · rw [if_pos hc1] at h
        simp only [Except.ok.injEq, Option.some.injEq, Prod.mk.injEq] at h
        obtain ⟨-, hr, hp⟩ := h
        subst hr; subst hp; omega
      rw [if_neg hc1] at h
      by_cases hc2 : c = '@'
      · rw [if_pos hc2] at h
        simp only [Except.ok.injEq, Option.some.injEq, Prod.mk.injEq] at h
        obtain ⟨-, hr, hp⟩ := h
        subst hr; subst hp; omega
      rw [if_neg hc2] at h
      by_cases hc3 : c = '.'
      · rw [if_pos hc3] at h
        by_cases hd : rest0.head? = some '.'
        · rw [if_pos hd] at h
          simp only [Except.ok.injEq, Option.some.injEq, Prod.mk.injEq] at h
          obtain ⟨-, hr, hp⟩ := h
          subst hr; subst hp
          cases rest0 with
          | nil => simp at hd
          | cons d ds =>
              simp only [List.length_cons] at hws ⊢
              simp only [List.tail_cons]
              omega
        · rw [if_neg hd] at h
          simp only [Except.ok.injEq, Option.some.injEq, Prod.mk.injEq] at h
          obtain ⟨-, hr, hp⟩ := h
          subst hr; subst hp; omega
      rw [if_neg hc3] at h
      by_cases hc4 : c = '['
      · rw [if_pos hc4] at h
        simp only [Except.ok.injEq, Option.some.injEq, Prod.mk.injEq] at h
        obtain ⟨-, hr, hp⟩ := h
        subst hr; subst hp; omega
      rw [if_neg hc4] at h
      by_cases hc5 : c = ']'
      · rw [if_pos hc5] at h
        simp only [Except.ok.injEq, Option.some.injEq, Prod.mk.injEq] at h
        obtain ⟨-, hr, hp⟩ := h
        subst hr; subst hp; omega
      rw [if_neg hc5] at h
      by_cases hc6 : c = '('
      · rw [if_pos hc6] at h
        simp only [Except.ok.injEq, Option.some.injEq, Prod.mk.injEq] at h
        obtain ⟨-, hr, hp⟩ := h
        subst hr; subst hp; omega
      rw [if_neg hc6] at h
      by_cases hc7 : c = ')'
      · rw [if_pos hc7] at h
        simp only [Except.ok.injEq, Option.some.injEq, Prod.mk.injEq] at h
        obtain ⟨-, hr, hp⟩ := h
        subst hr; subst hp; omega
      rw [if_neg hc7] at h
      by_cases hc8 : c = '*'
      · rw [if_pos hc8] at h
        simp only [Except.ok.injEq, Option.some.injEq, Prod.mk.injEq] at h
        obtain ⟨-, hr, hp⟩ := h
        subst hr; subst hp; omega
      rw [if_neg hc8] at h
      by_cases hc9 : c = ':'
      · rw [if_pos hc9] at h
        simp only [Except.ok.injEq, Option.some.injEq, Prod.mk.injEq] at h
        obtain ⟨-, hr, hp⟩ := h
        subst hr; subst hp; omega
      rw [if_neg hc9] at h
      by_cases hc10 : c = ','
      · rw [if_pos hc10] at h
        simp only [Except.ok.injEq, Option.some.injEq, Prod.mk.injEq] at h
        obtain ⟨-, hr, hp⟩ := h
        subst hr; subst hp; omega
      rw [if_neg hc10] at h
      by_cases hc11 : c = '?'
      · rw [if_pos hc11] at h
        simp only [Except.ok.injEq, Option.some.injEq, Prod.mk.injEq] at h
        obtain ⟨-, hr, hp⟩ := h
        subst hr; subst hp; omega
      rw [if_neg hc11] at h
      by_cases hc12 : c = '<'
      · rw [if_pos hc12] at h
        by_cases hd : rest0.head? = some '='
        · rw [if_pos hd] at h
          simp only [Except.ok.injEq, Option.some.injEq, Prod.mk.injEq] at h
          obtain ⟨-, hr, hp⟩ := h
          subst hr; subst hp
          cases rest0 with
          | nil => simp at hd
          | cons d ds =>
              simp only [List.length_cons] at hws ⊢
              simp only [List.tail_cons]
              omega
        · rw [if_neg hd] at h
          simp only [Except.ok.injEq, Option.some.injEq, Prod.mk.injEq] at h
          obtain ⟨-, hr, hp⟩ := h
          subst hr; subst hp; omega
      rw [if_neg hc12] at h
      by_cases hc13 : c = '>'
      · rw [if_pos hc13] at h
        by_cases hd : rest0.head? = some '='
        · rw [if_pos hd] at h
          simp only [Except.ok.injEq, Option.some.injEq, Prod.mk.injEq] at h
          obtain ⟨-, hr, hp⟩ := h
          subst hr; subst hp
          cases rest0 with
          | nil => simp at hd
          | cons d ds =>
              simp only [List.length_cons] at hws ⊢
              simp only [List.tail_cons]
              omega
        · rw [if_neg hd] at h
          simp only [Except.ok.injEq, Option.some.injEq, Prod.mk.injEq] at h
          obtain ⟨-, hr, hp⟩ := h
          subst hr; subst hp; omega
      rw [if_neg hc13] at h
      by_cases hc14 : c = '='
      · rw [if_pos hc14] at h
        by_cases hd : rest0.head? = some '='
        · rw [if_pos hd] at h
          simp only [Except.ok.injEq, Option.some.injEq, Prod.mk.injEq] at h
          obtain ⟨-, hr, hp⟩ := h
          subst hr; subst hp
          cases rest0 with
          | nil => simp at hd
          | cons d ds =>
              simp only [List.length_cons] at hws ⊢
              simp only [List.tail_cons]
              omega
        · rw [if_neg hd] at h
          exact Except.noConfusion h
      rw [if_neg hc14] at h
      by_cases hc15 : c = '!'
      · rw [if_pos hc15] at h
        by_cases hd : rest0.head? = some '='
        · rw [if_pos hd] at h
          simp only [Except.ok.injEq, Option.some.injEq, Prod.mk.injEq] at h
          obtain ⟨-, hr, hp⟩ := h
          subst hr; subst hp
          cases rest0 with
          | nil => simp at hd
          | cons d ds =>
              simp only [List.length_cons] at hws ⊢
              simp only [List.tail_cons]
              omega
        · rw [if_neg hd] at h
          simp only [Except.ok.injEq, Option.some.injEq, Prod.mk.injEq] at h
          obtain ⟨-, hr, hp⟩ := h
          subst hr; subst hp; omega
      rw [if_neg hc15] at h
      by_cases hc16 : c = '&'
      · rw [if_pos hc16] at h
        by_cases hd : rest0.head? = some '&'
        · rw [if_pos hd] at h
          simp only [Except.ok.injEq, Option.some.injEq, Prod.mk.injEq] at h
          obtain ⟨-, hr, hp⟩ := h
          subst hr; subst hp
          cases rest0 with
          | nil => simp at hd
          | cons d ds =>
              simp only [List.length_cons] at hws ⊢
              simp only [List.tail_cons]
              omega
        · rw [if_neg hd] at h
          exact Except.noConfusion h
      rw [if_neg hc16] at h
      by_cases hc17 : c = '|'
      · rw [if_pos hc17] at h
        by_cases hd : rest0.head? = some '|'
        · rw [if_pos hd] at h
          simp only [Except.ok.injEq, Option.some.injEq, Prod.mk.injEq] at h
          obtain ⟨-, hr, hp⟩ := h
          subst hr; subst hp
          cases rest0 with
          | nil => simp at hd
          | cons d ds =>
              simp only [List.length_cons] at hws ⊢
              simp only [List.tail_cons]
              omega
        · rw [if_neg hd] at h
          exact Except.noConfusion h
      rw [if_neg hc17] at h
      by_cases hc18 : c = squote ∨ c = '"'
      · rw [if_pos hc18] at h
        rcases hrs : readString (c :: rest0) startPos with e0 | ⟨k0, r0, p0⟩
        · rw [hrs] at h
          dsimp only at h
          exact Except.noConfusion h
        · rw [hrs] at h
          dsimp only at h
          have hsync := readString_sync (c :: rest0) startPos k0 r0 p0 hrs
          simp only [Except.ok.injEq, Option.some.injEq, Prod.mk.injEq] at h
          obtain ⟨-, hr, hp⟩ := h
          subst hr; subst hp
          simp only [List.length_cons] at hsync
          omega
      rw [if_neg hc18] at h
      by_cases hc19 : c = '-' ∨ c.isDigit = true
      · rw [if_pos hc19] at h
        rcases hrn : readNumber (c :: rest0) startPos with e0 | ⟨k0, r0, p0⟩
        · rw [hrn] at h
          dsimp only at h
          exact Except.noConfusion h
        · rw [hrn] at h
          dsimp only at h
          have hsync := readNumber_sync (c :: rest0) startPos k0 r0 p0 hrn
          simp only [Except.ok.injEq, Option.some.injEq, Prod.mk.injEq] at h
          obtain ⟨-, hr, hp⟩ := h
          subst hr; subst hp
          simp only [List.length_cons] at hsync
          omega
      rw [if_neg hc19] at h
      by_cases hc20 : isIdentStart c = true
      · rw [if_pos hc20] at h
        have hsync := readIdentOrKeyword_sync (c :: rest0) startPos
        rcases hri : readIdentOrKeyword (c :: rest0) startPos with ⟨k0, r0, p0⟩
        rw [hri] at h hsync
        dsimp only at h hsync
        simp only [Except.ok.injEq, Option.some.injEq, Prod.mk.injEq] at h
        obtain ⟨-, hr, hp⟩ := h
        subst hr; subst hp
        simp only [List.length_cons] at hsync
        omega
      rw [if_neg hc20] at h
      exact Except.noConfusion h

/-- C8, counterexample.  Token positions are not byte offsets: on the input
    `$.αβ[` the lexer records the `[` token at position 4 — its zero-based
    character (Unicode-scalar) offset — while the byte offset of `[` in the
    UTF-8 encoding is 6, because `α` and `β` occupy two bytes each. -/
theorem claim8_byte_positions_counterexample :
    tokenize "$.αβ[".toList =
      .ok [⟨.root, 0⟩, ⟨.dot, 1⟩, ⟨.ident "αβ".toList, 2⟩, ⟨.bracketOpen, 4⟩]
    ∧ utf8Len ("$.αβ[".toList.take 4) = 6
    ∧ (4 : ℕ) ≠ 6 := by decide

/-- The error component of a parse result (the `Err` projection used to
    state error-position facts without deciding equality of parsed paths). -/
def parseErr (r : Except ParseError JsonPath) : Option ParseError :=
  match r with
  | .error e => some e
  | .ok _ => none

/-- C8, amended.  Token, `LexerError` and end-of-input `ParseError`
    positions are zero-based character (Unicode-scalar) offsets into the
    query string, not byte offsets: `advance` increments the position by one
    per character, so every token produced by `next_token` moves the
    position by exactly the number of characters consumed (the first
    conjunct), and on `$.αβ[` both the token positions and the
    unexpected-character error position count characters.  The single
    exception is the trailing-whitespace check of `Parser::parse`, which
    reports the byte length of the input minus one (the byte offset of the
    final one-byte whitespace character): on `$α ` it reports 3 even though
    the offending space is at character offset 2. -/
theorem claim8_positions_are_char_offsets :
    (∀ (chars : List Char) (pos : ℕ) (t : Token) (rest : List Char)
        (pos2 : ℕ),
        nextToken chars pos = .ok (some (t, rest, pos2)) →
          pos2 + rest.length = pos + chars.length)
    ∧ tokenize "$.αβ[".toList =
        .ok [⟨.root, 0⟩, ⟨.dot, 1⟩, ⟨.ident "αβ".toList, 2⟩, ⟨.bracketOpen, 4⟩]
    ∧ tokenize "$.α#".toList = .error ⟨"unexpected character".toList, 3⟩
    ∧ parseErr (parserParse "$.α[".toList) =
        some ⟨"unexpected end of input in selector".toList, 4⟩
    ∧ parseErr (parserParse "$α ".toList) =
        some ⟨"trailing whitespace is not allowed".toList,
          utf8Len "$α ".toList - 1⟩
    ∧ utf8Len "$α ".toList - 1 = 3
    ∧ "$α ".toList.length = 3 :=
  ⟨nextToken_sync, by decide⟩

/-- Witness for C8 (amended): the invariant applied to the concrete input
    `$` at position 0. -/
theorem claim8_positions_are_char_offsets_witness :
    (1 : ℕ) + ([] : List Char).length = 0 + "$".toList.length :=
  claim8_positions_are_char_offsets.1 "$".toList 0 ⟨.root, 0⟩ [] 1 (by decide)

/-- C5.  Numbers in index position must be fraction/exponent-free and give
    an integer in `[-(2^53 - 1), 2^53 - 1]`, and `-0` is rejected: `$[1.5]`
    and `$[-0]` fail to parse while the extreme in-range indices parse and
    the first out-of-range ones fail; the lexed Number token carries the
    value together with the negative-sign bit and the fraction/exponent
    flag (`$[1.5]` lexes to a `number` token with the flag set, `$[-0]` is
    already rejected by the lexer); `try_parse_index_number` rejects every
    number token whose fraction/exponent flag is set and every value
    outside the interval. -/
theorem claim5_index_integer_bounds :
    (parserParse "$[1.5]".toList).isOk = false
    ∧ (parserParse "$[-0]".toList).isOk = false
    ∧ (parserParse "$[9007199254740991]".toList).isOk = true
    ∧ (parserParse "$[-9007199254740991]".toList).isOk = true
    ∧ (parserParse "$[9007199254740992]".toList).isOk = false
    ∧ (parserParse "$[-9007199254740992]".toList).isOk = false
    ∧ tokenize "$[1.5]".toList =
        .ok [⟨.root, 0⟩, ⟨.bracketOpen, 1⟩,
          ⟨.number (mkRat 3 2) false true, 2⟩, ⟨.bracketClose, 5⟩]
    ∧ tokenize "$[-0]".toList = .error ⟨"-0 is not allowed".toList, 2⟩
    ∧ (∀ (v : ℚ) (neg : Bool) (tokens : List Token) (i : ℕ),
        currentKind tokens i = some (.number v neg true) →
        ¬ (v = 0 ∧ neg = true) →
          tryParseIndexNumber tokens i =
            .error ⟨"index must be an integer, not a decimal".toList,
              currentPosition tokens i⟩)
    ∧ (∀ (v : ℚ) (neg fe : Bool) (tokens : List Token) (i : ℕ),
        currentKind tokens i = some (.number v neg fe) →
        ¬ (v = 0 ∧ neg = true) → ¬ fe = true →
        (v < -(RFC9535_MAX_INT : ℚ) ∨ (RFC9535_MAX_INT : ℚ) < v) →
          tryParseIndexNumber tokens i =
            .error ⟨"index out of range".toList,
              currentPosition tokens i⟩) := by
  refine ⟨by decide, by decide, by decide, by decide, by decide, by decide,
    by decide, by decide, ?_, ?_⟩
  · intro v neg tokens i hk hne
    simp only [tryParseIndexNumber, hk]
    rw [if_neg hne]
    simp
  · intro v neg fe tokens i hk hne hfe hrange
    simp only [tryParseIndexNumber, hk]
    rw [if_neg hne, if_neg hfe, if_pos hrange]

/-- Witness for C5: the fraction-flag rejection applied to the concrete
    token list of `$[1.5]` at index 2. -/
theorem claim5_index_integer_bounds_witness :
    tryParseIndexNumber
        [⟨.root, 0⟩, ⟨.bracketOpen, 1⟩, ⟨.number (mkRat 3 2) false true, 2⟩,
          ⟨.bracketClose, 5⟩] 2 =
      .error ⟨"index must be an integer, not a decimal".toList, 2⟩ := by
  have h := claim5_index_integer_bounds.2.2.2.2.2.2.2.2.1 (mkRat 3 2) false
    [⟨.root, 0⟩, ⟨.bracketOpen, 1⟩, ⟨.number (mkRat 3 2) false true, 2⟩,
      ⟨.bracketClose, 5⟩] 2 (by decide) (by decide)
  simpa using h
